import Mathlib

/-!
Shallow embedding of the interactive ASCII background engine of
`src/script.js` (the canvas grid animation IIFE).

Conventions of the embedding:
* JS numbers used as integers are modeled as `ℕ`/`ℤ`; timestamps and
  pixel coordinates (which may be fractional) as `ℚ`.
* `Math.random()`-driven choices are inputs: each operation receives an
  oracle function, and the source's `Math.floor(Math.random() * n)`
  (a value in `[0, n)`) is modeled by reducing the oracle's value `% n`.
* The 2D array `grid` is modeled as a total function `ℕ → ℕ → Cell`
  together with the `rows`/`cols` bounds held in the state; the source
  only ever indexes the grid inside those bounds.
* The JS `Set` `dirtySet` (which iterates in insertion order) is modeled
  as a duplicate-free `List ℕ` in insertion order.
* Canvas drawing (`drawCell`, `fullDraw`, `ctx` operations) and
  `requestAnimationFrame` re-arming are I/O with no effect on the
  engine state, so they have no counterpart in the state transitions.
-/

/-- `SYMBOLS`: the fixed glyph alphabet `'@#%^&*[]{}~<>|/\+-=.:;!?$'.split('')`. -/
def SYMBOLS : List Char := "@#%^&*[]\x7b\x7d~<>|/\\+-=.:;!?$".toList

/-- `CELL_SIZE = 22` (px per grid cell). -/
def CELL_SIZE : ℚ := 22

/-- `BASE_COLOR = '#e0e0e0'` (resting symbol colour). -/
def BASE_COLOR : String := "#e0e0e0"

/-- `HOVER_COLOR = '#888888'` (darkened during scramble). -/
def HOVER_COLOR : String := "#888888"

/-- `SCRAMBLE_FRAMES = 6` (how many random flips before settling). -/
def SCRAMBLE_FRAMES : ℤ := 6

/-- `SETTLE_DURATION = 400` (ms to fade colour back to base). -/
def SETTLE_DURATION : ℚ := 400

/-- `FRAME_INTERVAL = 1000 / 20` (scramble updates throttled to ~20fps). -/
def FRAME_INTERVAL : ℚ := 1000 / 20

/-- `randSymbol`: `SYMBOLS[Math.floor(Math.random() * SYMBOLS.length)]`.
The random draw is an oracle value `u`; `Math.floor(Math.random() * len)`
is a uniform value in `[0, len)`, modeled as `u % SYMBOLS.length`.
The `getD` default is never reached since the index is `< length`. -/
def randSymbol (u : ℕ) : Char := SYMBOLS.getD (u % SYMBOLS.length) ' '

/-- `key (r, c) = r * 10000 + c`: pack row,col into a single integer key
for the dirty set. -/
def key (r c : ℕ) : ℕ := r * 10000 + c

/-- Decode of a dirty-set key in `animate`: `r = Math.floor(k / 10000)`. -/
def decodeRow (k : ℕ) : ℕ := k / 10000

/-- Decode of a dirty-set key in `animate`: `c = k % 10000`. -/
def decodeCol (k : ℕ) : ℕ := k % 10000

/-- The per-cell state string of `script.js`: `'idle' | 'scramble' | 'settling'`. -/
inductive CellState where
  | idle : CellState
  | scramble : CellState
  | settling : CellState
deriving DecidableEq, Repr

/-- One grid cell record, as built in `buildGrid`:
`{ symbol, origSymbol, color, state, framesLeft, settleStart }`.
`symbol`/`origSymbol` are `Option Char` because `origSymbol` is `null`
while idle (and `symbol` is assigned from `origSymbol` on the
scramble→settling transition). -/
structure Cell where
  symbol : Option Char
  origSymbol : Option Char
  color : String
  state : CellState
  framesLeft : ℤ
  settleStart : ℚ
deriving DecidableEq, Repr

/-- The 2D cell array `grid`, as a total function with bounds kept in
`EngineState`. -/
abbrev Grid := ℕ → ℕ → Cell

/-- Pointwise update of the grid at one coordinate (a JS mutation of
`grid[r][c]`). -/
def setCell (g : Grid) (r c : ℕ) (cell : Cell) : Grid :=
  fun r' c' => if r' = r ∧ c' = c then cell else g r' c'

/-- The module-level mutable state of the engine IIFE:
`cols`, `rows`, `grid`, `dirtySet`, `mouseCol`, `mouseRow`, `lastFrame`.
(`dpr`, `animId` and the canvas handle only affect drawing I/O.) -/
structure EngineState where
  cols : ℕ
  rows : ℕ
  grid : Grid
  dirty : List ℕ
  mouseCol : ℤ
  mouseRow : ℤ
  lastFrame : ℚ

/-- JS `Set.add`: no-op when the key is present, else append (JS sets
iterate in insertion order). -/
def addKey (d : List ℕ) (k : ℕ) : List ℕ := if k ∈ d then d else d ++ [k]

/-- A fresh cell as pushed by `buildGrid`:
`{ symbol: randSymbol(), origSymbol: null, color: BASE_COLOR,
   state: 'idle', framesLeft: 0, settleStart: 0 }`. -/
def freshCell (u : ℕ) : Cell :=
  { symbol := some (randSymbol u)
    origSymbol := none
    color := BASE_COLOR
    state := CellState.idle
    framesLeft := 0
    settleStart := 0 }

/-- `cols = Math.ceil(canvas.clientWidth / CELL_SIZE) + 1`. -/
def gridCols (w : ℚ) : ℕ := (⌈w / CELL_SIZE⌉ + 1).toNat

/-- `rows = Math.ceil(canvas.clientHeight / CELL_SIZE) + 1`. -/
def gridRows (h : ℚ) : ℕ := (⌈h / CELL_SIZE⌉ + 1).toNat

/-- `buildGrid()`: recompute `cols`/`rows` from the client width/height
`w`/`h` and replace `grid` wholesale with fresh idle cells (one oracle
draw `symOf r c` per cell). The canvas/dpr setup and the final
`fullDraw()` are drawing I/O. Note that `buildGrid` touches no other
module variable: in particular `dirtySet`, `mouseCol`, `mouseRow` and
`lastFrame` are left as they were. -/
def buildGrid (symOf : ℕ → ℕ → ℕ) (w h : ℚ) (s : EngineState) : EngineState :=
  { s with
    cols := gridCols w
    rows := gridRows h
    grid := fun r c => freshCell (symOf r c) }

/-- The in-place mutation `onMouseMove` applies to an idle cell:
`state = 'scramble'`, `origSymbol = symbol`,
`framesLeft = SCRAMBLE_FRAMES + Math.floor(Math.random() * 3)`
(oracle draw `j`, reduced `% 3`). -/
def activatedCell (cell : Cell) (j : ℕ) : Cell :=
  { cell with
    state := CellState.scramble
    origSymbol := cell.symbol
    framesLeft := SCRAMBLE_FRAMES + ((j % 3 : ℕ) : ℤ) }

/-- The body of the `onMouseMove` activation loop for one neighbor
`(rr, cc) = (mouseRow + dr, mouseCol + dc)`: bounds check, then if the
cell is idle apply `activatedCell` to it and add its packed key to the
dirty set. -/
def activateAt (jit : ℕ → ℕ → ℕ) (s : EngineState) (rr cc : ℤ) : EngineState :=
  if 0 ≤ rr ∧ rr < (s.rows : ℤ) ∧ 0 ≤ cc ∧ cc < (s.cols : ℤ) then
    let r := rr.toNat
    let c := cc.toNat
    let cell := s.grid r c
    if cell.state = CellState.idle then
      { s with
        grid := setCell s.grid r c (activatedCell cell (jit r c))
        dirty := addKey s.dirty (key r c) }
    else s
  else s

/-- The `(dr, dc)` pairs visited by the two nested loops
`for dr in -1..1, for dc in -1..1`, in source order. -/
def scanOffsets : List (ℤ × ℤ) :=
  [(-1, -1), (-1, 0), (-1, 1), (0, -1), (0, 0), (0, 1), (1, -1), (1, 0), (1, 1)]

/-- The activation double loop of `onMouseMove`, folded over the list of
`(dr, dc)` offsets it visits. -/
def activateScan (jit : ℕ → ℕ → ℕ) (newRow newCol : ℤ) (s : EngineState)
    (L : List (ℤ × ℤ)) : EngineState :=
  L.foldl (fun acc d => activateAt jit acc (newRow + d.1) (newCol + d.2)) s

/-- `onMouseMove(e)`: map the canvas-relative pointer position to a grid
cell; bail out if it is the cell already tracked; otherwise update the
tracked cell and activate the 3×3 neighborhood around it.
`mx`/`my` are `e.clientX - rect.left` / `e.clientY - rect.top`. -/
def onMouseMove (jit : ℕ → ℕ → ℕ) (mx my : ℚ) (s : EngineState) : EngineState :=
  let newCol : ℤ := ⌊mx / CELL_SIZE⌋
  let newRow : ℤ := ⌊my / CELL_SIZE⌋
  if newCol = s.mouseCol ∧ newRow = s.mouseRow then s
  else
    let s1 := { s with mouseCol := newCol, mouseRow := newRow }
    activateScan jit newRow newCol s1 scanOffsets

/-- `onMouseLeave()`: reset the tracked cell to the `-1` sentinel. -/
def onMouseLeave (s : EngineState) : EngineState :=
  { s with mouseCol := -1, mouseRow := -1 }

/-- `hexToRGB(hex)`: `parseInt(hex.slice(1), 16)` digit value of one
character (`parseInt` accepts both letter cases). -/
def hexDigitVal (ch : Char) : ℕ :=
  if '0' ≤ ch ∧ ch ≤ '9' then ch.toNat - '0'.toNat
  else if 'a' ≤ ch ∧ ch ≤ 'f' then ch.toNat - 'a'.toNat + 10
  else if 'A' ≤ ch ∧ ch ≤ 'F' then ch.toNat - 'A'.toNat + 10
  else 0

/-- `parseInt(·, 16)` on a list of hex digit characters. -/
def parseHexChars (l : List Char) : ℕ :=
  l.foldl (fun acc ch => acc * 16 + hexDigitVal ch) 0

/-- `hexToRGB(hex)`: parse the digits after the `'#'` and split the 24-bit
value with shifts and masks: `[(n >> 16) & 255, (n >> 8) & 255, n & 255]`.
(JS `>>`/`&` agree with the `ℕ` operations on these nonnegative values,
which are below `2^32`.) -/
def hexToRGB (hex : String) : ℕ × ℕ × ℕ :=
  let n := parseHexChars (hex.toList.drop 1)
  ((n >>> 16) &&& 255, (n >>> 8) &&& 255, n &&& 255)

/-- JS `Number.prototype.toString(16)` for a positive integer: base-16
digits, most significant first, lowercase letters (`Nat.digitChar`
produces `'a'`-`'f'`, matching JS). Every call site below passes a value
`≥ 2^24 > 0`, where this is exact. -/
def toHexChars (n : ℕ) : List Char :=
  (Nat.digits 16 n).reverse.map Nat.digitChar

/-- `rgbToHex(r, g, b) = '#' + ((1 << 24) | (r << 16) | (g << 8) | b)
.toString(16).slice(1)`. The channels are integers in `[0, 255]` at
every call (proved below); `Int.toNat` embeds them into `ℕ` where the JS
bitwise ops agree with `<<<`/`|||`. -/
def rgbToHex (r g b : ℤ) : String :=
  "#" ++ String.mk ((toHexChars
    ((1 <<< 24) ||| (r.toNat <<< 16) ||| (g.toNat <<< 8) ||| b.toNat)).drop 1)

/-- JS `Math.round` (round half towards positive infinity). -/
def jsRound (x : ℚ) : ℤ := ⌊x + 1 / 2⌋

/-- `lerpColor(a, b, t)`: decode both endpoint colors and round each
channel of `a + (b - a) * t` back into a hex string. -/
def lerpColor (a b : String) (t : ℚ) : String :=
  let av := hexToRGB a
  let bv := hexToRGB b
  rgbToHex
    (jsRound ((av.1 : ℚ) + ((bv.1 : ℚ) - (av.1 : ℚ)) * t))
    (jsRound ((av.2.1 : ℚ) + ((bv.2.1 : ℚ) - (av.2.1 : ℚ)) * t))
    (jsRound ((av.2.2 : ℚ) + ((bv.2.2 : ℚ) - (av.2.2 : ℚ)) * t))

/-- `easeOutCubic(t) = 1 - Math.pow(1 - t, 3)`. -/
def easeOutCubic (t : ℚ) : ℚ := 1 - (1 - t) ^ 3

/-- The per-cell body of the `dirtySet.forEach` callback in `animate`,
for a cell that is in bounds. Returns the updated cell and whether the
key is pushed onto `toRemove`.
* `'scramble'`: only when `doScrambleTick`: draw a fresh random glyph
  (oracle value `u`), set `color = HOVER_COLOR`, decrement `framesLeft`;
  when it reaches `<= 0`, switch to `'settling'`, restore
  `symbol = origSymbol` and record `settleStart = now`.
* `'settling'`: every frame: `t = min(elapsed / SETTLE_DURATION, 1)`,
  `color = lerpColor(HOVER_COLOR, BASE_COLOR, easeOutCubic(t))`; once
  `t >= 1`, become idle with exactly the base color, clear `origSymbol`,
  and push the key for removal.
* `'idle'` (else branch): push the key for removal, touch nothing. -/
def tickCell (u : ℕ) (doScrambleTick : Bool) (now : ℚ) (cell : Cell) : Cell × Bool :=
  match cell.state with
  | CellState.scramble =>
    if doScrambleTick then
      let cell1 := { cell with
        symbol := some (randSymbol u)
        color := HOVER_COLOR
        framesLeft := cell.framesLeft - 1 }
      if cell1.framesLeft ≤ 0 then
        ({ cell1 with
            state := CellState.settling
            symbol := cell1.origSymbol
            settleStart := now }, false)
      else (cell1, false)
    else (cell, false)
  | CellState.settling =>
    let elapsed := now - cell.settleStart
    let t := min (elapsed / SETTLE_DURATION) 1
    let cell1 := { cell with color := lerpColor HOVER_COLOR BASE_COLOR (easeOutCubic t) }
    if 1 ≤ t then
      ({ cell1 with
          state := CellState.idle
          color := BASE_COLOR
          origSymbol := none }, true)
    else (cell1, false)
  | CellState.idle => (cell, true)

/-- One iteration of `dirtySet.forEach(k => …)` over the accumulated
`(grid, toRemove)`: decode the key, drop it (push to `toRemove`) when it
is outside the current grid bounds without touching the grid, otherwise
run the per-cell step on `grid[r][c]`. -/
def processKey (o : ℕ → ℕ) (now : ℚ) (doScrambleTick : Bool) (rows cols : ℕ)
    (acc : Grid × List ℕ) (k : ℕ) : Grid × List ℕ :=
  let r := decodeRow k
  let c := decodeCol k
  if rows ≤ r ∨ cols ≤ c then (acc.1, acc.2 ++ [k])
  else
    let res := tickCell (o k) doScrambleTick now (acc.1 r c)
    (setCell acc.1 r c res.1, if res.2 then acc.2 ++ [k] else acc.2)

/-- `animate(now)`: one invocation of the per-frame callback (the
`requestAnimationFrame` re-arm and the `drawCell` calls are I/O).
Decide the throttled scramble cadence from `now - lastFrame`, walk the
dirty set accumulating grid updates and `toRemove`, and only after the
full pass delete the collected keys from the dirty set. The oracle `o`
supplies the random glyph draw for key `k`. -/
def animate (o : ℕ → ℕ) (now : ℚ) (s : EngineState) : EngineState :=
  let deltaFrame := now - s.lastFrame
  let doScrambleTick : Bool := decide (FRAME_INTERVAL ≤ deltaFrame)
  let lastFrame' := if doScrambleTick then now else s.lastFrame
  let res := s.dirty.foldl (processKey o now doScrambleTick s.rows s.cols) (s.grid, [])
  { s with
    grid := res.1
    lastFrame := lastFrame'
    dirty := s.dirty.filter (fun k => decide (k ∉ res.2)) }

/-- The inputs of one `animate` invocation: the random-glyph oracle and
the frame timestamp. -/
structure TickIn where
  o : ℕ → ℕ
  now : ℚ

/-- Run a sequence of `animate` frames. -/
def runTicks (s : EngineState) (ts : List TickIn) : EngineState :=
  ts.foldl (fun acc i => animate i.o i.now acc) s

/-- How many of the frames in `ts` are throttled scramble-cadence ticks,
starting from the given `lastFrame` value (the throttle state evolves
only with the timestamps, independent of the grid). -/
def stCount (lf : ℚ) : List TickIn → ℕ
  | [] => 0
  | i :: is =>
    if FRAME_INTERVAL ≤ i.now - lf then 1 + stCount i.now is else stCount lf is

/-- The value of `lastFrame` after running the frames in `ts`. -/
def lastAfter (lf : ℚ) : List TickIn → ℚ
  | [] => lf
  | i :: is =>
    if FRAME_INTERVAL ≤ i.now - lf then lastAfter i.now is else lastAfter lf is

/-- The module state right after the IIFE's variable declarations, before
the startup `buildGrid()` call: `cols = rows = 0`, `grid = []` (modeled
by an all-fresh dummy since no cell exists to be observed), empty dirty
set, mouse sentinel `-1`, `lastFrame = 0`. -/
def emptyState : EngineState :=
  { cols := 0
    rows := 0
    grid := fun _ _ => freshCell 0
    dirty := []
    mouseCol := -1
    mouseRow := -1
    lastFrame := 0 }

/-- The states the engine can reach: the startup `buildGrid()`, then any
interleaving of pointer moves, pointer leaves, animation frames, and
debounced resize rebuilds. The side condition `gridCols w ≤ 10000`
states that the viewport never yields more columns than the fixed
key-packing multiplier (the spec's "large enough to exceed any
realistic column count"). -/
inductive Reach : EngineState → Prop where
  | init (symOf : ℕ → ℕ → ℕ) (w h : ℚ) (hw : gridCols w ≤ 10000) :
      Reach (buildGrid symOf w h emptyState)
  | mouse {s : EngineState} (jit : ℕ → ℕ → ℕ) (mx my : ℚ) (hs : Reach s) :
      Reach (onMouseMove jit mx my s)
  | leave {s : EngineState} (hs : Reach s) : Reach (onMouseLeave s)
  | frame {s : EngineState} (o : ℕ → ℕ) (now : ℚ) (hs : Reach s) :
      Reach (animate o now s)
  | rebuild {s : EngineState} (symOf : ℕ → ℕ → ℕ) (w h : ℚ)
      (hw : gridCols w ≤ 10000) (hs : Reach s) :
      Reach (buildGrid symOf w h s)

/-- The inductive invariant carried through `Reach`: the column count
respects the key multiplier, the dirty list is duplicate-free (it models
a JS `Set`), and every non-idle in-bounds cell has its key in the dirty
set. -/
def EngineInv (s : EngineState) : Prop :=
  s.cols ≤ 10000 ∧ s.dirty.Nodup ∧
    ∀ r c, r < s.rows → c < s.cols →
      (s.grid r c).state ≠ CellState.idle → key r c ∈ s.dirty

/-- Componentwise comparison of two hex color strings through
`hexToRGB`: used to state that a settling cell's color only moves from
the hover tone toward the base tone, never backward. -/
def chanLe (a b : String) : Prop :=
  (hexToRGB a).1 ≤ (hexToRGB b).1 ∧ (hexToRGB a).2.1 ≤ (hexToRGB b).2.1 ∧
    (hexToRGB a).2.2 ≤ (hexToRGB b).2.2

/-! ### Concrete states used by the witnesses -/

/-- A 2×2 grid built from a 22-px viewport. -/
def witnessGrid22 : EngineState := buildGrid (fun _ _ => 0) 22 22 emptyState

/-- `witnessGrid22` after the pointer enters cell (0,0) (jitter draw 7). -/
def witnessMoved : EngineState := onMouseMove (fun _ _ => 7) 0 0 witnessGrid22

/-- A 10×10 grid built from a 198-px viewport. -/
def witnessGrid198 : EngineState := buildGrid (fun _ _ => 0) 198 198 emptyState

/-- A scrambling cell one throttled tick away from settling. -/
def scrambleCell1 : Cell :=
  { symbol := some '@'
    origSymbol := some '#'
    color := HOVER_COLOR
    state := CellState.scramble
    framesLeft := 1
    settleStart := 0 }

/-- A 1×1 grid whose single cell is `scrambleCell1`, with its key dirty. -/
def scrambleState1 : EngineState :=
  { cols := 1
    rows := 1
    grid := fun _ _ => scrambleCell1
    dirty := [key 0 0]
    mouseCol := -1
    mouseRow := -1
    lastFrame := 0 }

/-- A settling cell that started settling at time 0. -/
def settleCell1 : Cell :=
  { symbol := some '#'
    origSymbol := some '#'
    color := HOVER_COLOR
    state := CellState.settling
    framesLeft := 0
    settleStart := 0 }

/-- A 1×1 grid whose single cell is `settleCell1`, with its key dirty. -/
def settleState1 : EngineState :=
  { cols := 1
    rows := 1
    grid := fun _ _ => settleCell1
    dirty := [key 0 0]
    mouseCol := -1
    mouseRow := -1
    lastFrame := 0 }

/-- A 1×1 grid whose dirty set holds the stale key 20000 (row 2). -/
def staleState1 : EngineState :=
  { cols := 1
    rows := 1
    grid := fun _ _ => freshCell 0
    dirty := [20000]
    mouseCol := -1
    mouseRow := -1
    lastFrame := 0 }

/-! ## Basic lemmas: keys, grid updates, dirty-set updates -/

theorem decode_key (r c : ℕ) (hc : c < 10000) :
    decodeRow (key r c) = r ∧ decodeCol (key r c) = c := by
  simp only [decodeRow, decodeCol, key]
  omega

theorem key_decode (k : ℕ) : key (decodeRow k) (decodeCol k) = k := by
  simp only [decodeRow, decodeCol, key]
  omega

theorem decode_inj {k k' : ℕ} (h1 : decodeRow k = decodeRow k')
    (h2 : decodeCol k = decodeCol k') : k = k' := by
  simp only [decodeRow] at h1
  simp only [decodeCol] at h2
  omega

theorem setCell_self (g : Grid) (r c : ℕ) (cell : Cell) :
    setCell g r c cell r c = cell := by
  simp [setCell]

theorem setCell_ne (g : Grid) (r c : ℕ) (cell : Cell) (r' c' : ℕ)
    (h : ¬(r' = r ∧ c' = c)) : setCell g r c cell r' c' = g r' c' := by
  simp only [setCell, if_neg h]

theorem mem_addKey {d : List ℕ} {k k' : ℕ} :
    k' ∈ addKey d k ↔ k' ∈ d ∨ k' = k := by
  unfold addKey
  by_cases h : k ∈ d
  · simp only [if_pos h]
    constructor
    · exact fun hm => Or.inl hm
    · rintro (hm | rfl)
      · exact hm
      · exact h
  · simp [if_neg h, List.mem_append]

theorem addKey_nodup {d : List ℕ} {k : ℕ} (h : d.Nodup) : (addKey d k).Nodup := by
  unfold addKey
  by_cases hk : k ∈ d
  · simpa [if_pos hk]
  · rw [if_neg hk]
    refine h.append (List.nodup_singleton k) ?_
    intro a ha hak
    rw [List.mem_singleton] at hak
    exact hk (hak ▸ ha)

/-! ### `activateAt` -/

theorem activateAt_cols (jit : ℕ → ℕ → ℕ) (s : EngineState) (rr cc : ℤ) :
    (activateAt jit s rr cc).cols = s.cols := by
  simp only [activateAt]
  split
  · split <;> rfl
  · rfl

theorem activateAt_rows (jit : ℕ → ℕ → ℕ) (s : EngineState) (rr cc : ℤ) :
    (activateAt jit s rr cc).rows = s.rows := by
  simp only [activateAt]
  split
  · split <;> rfl
  · rfl

theorem activateAt_mouse (jit : ℕ → ℕ → ℕ) (s : EngineState) (rr cc : ℤ) :
    (activateAt jit s rr cc).mouseCol = s.mouseCol ∧
      (activateAt jit s rr cc).mouseRow = s.mouseRow := by
  simp only [activateAt]
  split
  · split <;> exact ⟨rfl, rfl⟩
  · exact ⟨rfl, rfl⟩

theorem activateAt_grid_ne (jit : ℕ → ℕ → ℕ) (s : EngineState) (rr cc : ℤ)
    (r c : ℕ) (h : ¬(rr = (r : ℤ) ∧ cc = (c : ℤ))) :
    (activateAt jit s rr cc).grid r c = s.grid r c := by
  simp only [activateAt]
  split
  next hb =>
    split
    · refine setCell_ne _ _ _ _ _ _ ?_
      rintro ⟨rfl, rfl⟩
      exact h ⟨(Int.toNat_of_nonneg hb.1).symm, (Int.toNat_of_nonneg hb.2.2.1).symm⟩
    · rfl
  · rfl

theorem activateAt_grid_hit (jit : ℕ → ℕ → ℕ) (s : EngineState) (r c : ℕ) :
    (activateAt jit s (r : ℤ) (c : ℤ)).grid r c =
      if r < s.rows ∧ c < s.cols ∧ (s.grid r c).state = CellState.idle
      then activatedCell (s.grid r c) (jit r c)
      else s.grid r c := by
  simp only [activateAt, Int.toNat_ofNat]
  by_cases hrc : r < s.rows ∧ c < s.cols
  · rw [if_pos ⟨by positivity, by exact_mod_cast hrc.1, by positivity, by exact_mod_cast hrc.2⟩]
    by_cases hidle : (s.grid r c).state = CellState.idle
    · rw [if_pos hidle, if_pos ⟨hrc.1, hrc.2, hidle⟩]
      exact setCell_self _ _ _ _
    · rw [if_neg hidle, if_neg (by tauto)]
  · rw [if_neg (by omega), if_neg (by tauto)]

theorem activateAt_grid_state_not_idle (jit : ℕ → ℕ → ℕ) (s : EngineState)
    (rr cc : ℤ) (r c : ℕ)
    (h : ¬((s.grid r c).state = CellState.idle ∧ r < s.rows ∧ c < s.cols)) :
    (activateAt jit s rr cc).grid r c = s.grid r c := by
  by_cases hhit : rr = (r : ℤ) ∧ cc = (c : ℤ)
  · obtain ⟨rfl, rfl⟩ := hhit
    rw [activateAt_grid_hit, if_neg (by tauto)]
  · exact activateAt_grid_ne jit s rr cc r c hhit

theorem activateAt_dirty_mono (jit : ℕ → ℕ → ℕ) (s : EngineState) (rr cc : ℤ)
    {k : ℕ} (h : k ∈ s.dirty) : k ∈ (activateAt jit s rr cc).dirty := by
  simp only [activateAt]
  split
  · split
    · exact mem_addKey.mpr (Or.inl h)
    · exact h
  · exact h

theorem activateAt_dirty_nodup (jit : ℕ → ℕ → ℕ) (s : EngineState) (rr cc : ℤ)
    (h : s.dirty.Nodup) : (activateAt jit s rr cc).dirty.Nodup := by
  simp only [activateAt]
  split
  · split
    · exact addKey_nodup h
    · exact h
  · exact h

theorem activateAt_dirty_hit (jit : ℕ → ℕ → ℕ) (s : EngineState) (r c : ℕ)
    (hr : r < s.rows) (hc : c < s.cols)
    (hidle : (s.grid r c).state = CellState.idle) :
    key r c ∈ (activateAt jit s (r : ℤ) (c : ℤ)).dirty := by
  simp only [activateAt, Int.toNat_ofNat]
  rw [if_pos ⟨by positivity, by exact_mod_cast hr, by positivity, by exact_mod_cast hc⟩]
  rw [if_pos hidle]
  exact mem_addKey.mpr (Or.inr rfl)

/-! ### `activateScan` (the 3×3 activation loop) -/

theorem activateScan_nil (jit : ℕ → ℕ → ℕ) (nR nC : ℤ) (s : EngineState) :
    activateScan jit nR nC s [] = s := rfl

theorem activateScan_cons (jit : ℕ → ℕ → ℕ) (nR nC : ℤ) (s : EngineState)
    (d : ℤ × ℤ) (L : List (ℤ × ℤ)) :
    activateScan jit nR nC s (d :: L) =
      activateScan jit nR nC (activateAt jit s (nR + d.1) (nC + d.2)) L := rfl

theorem activateScan_cols (jit : ℕ → ℕ → ℕ) (nR nC : ℤ) (s : EngineState)
    (L : List (ℤ × ℤ)) : (activateScan jit nR nC s L).cols = s.cols := by
  induction L generalizing s with
  | nil => rfl
  | cons d L ih => rw [activateScan_cons, ih, activateAt_cols]

theorem activateScan_rows (jit : ℕ → ℕ → ℕ) (nR nC : ℤ) (s : EngineState)
    (L : List (ℤ × ℤ)) : (activateScan jit nR nC s L).rows = s.rows := by
  induction L generalizing s with
  | nil => rfl
  | cons d L ih => rw [activateScan_cons, ih, activateAt_rows]

theorem activateScan_grid_not_idle (jit : ℕ → ℕ → ℕ) (nR nC : ℤ)
    (s : EngineState) (L : List (ℤ × ℤ)) (r c : ℕ)
    (h : ¬((s.grid r c).state = CellState.idle ∧ r < s.rows ∧ c < s.cols)) :
    (activateScan jit nR nC s L).grid r c = s.grid r c := by
  induction L generalizing s with
  | nil => rfl
  | cons d L ih =>
    rw [activateScan_cons]
    have hstep := activateAt_grid_state_not_idle jit s (nR + d.1) (nC + d.2) r c h
    rw [ih _ (by rw [hstep, activateAt_rows, activateAt_cols]; exact h), hstep]

theorem activateScan_grid_not_mem (jit : ℕ → ℕ → ℕ) (nR nC : ℤ)
    (s : EngineState) (L : List (ℤ × ℤ)) (r c : ℕ)
    (h : ((r : ℤ) - nR, (c : ℤ) - nC) ∉ L) :
    (activateScan jit nR nC s L).grid r c = s.grid r c := by
  induction L generalizing s with
  | nil => rfl
  | cons d L ih =>
    rw [activateScan_cons]
    have hd : ¬(nR + d.1 = (r : ℤ) ∧ nC + d.2 = (c : ℤ)) := by
      rintro ⟨h1, h2⟩
      have hd2 : d = ((r : ℤ) - nR, (c : ℤ) - nC) := by
        obtain ⟨d1, d2⟩ := d
        simp only [Prod.mk.injEq]
        constructor <;> [omega; omega]
      exact h (List.mem_cons.mpr (Or.inl hd2.symm))
    rw [ih _ (fun hm => h (List.mem_cons_of_mem d hm)),
      activateAt_grid_ne jit s _ _ r c hd]

theorem activateScan_grid_mem (jit : ℕ → ℕ → ℕ) (nR nC : ℤ)
    (s : EngineState) (L : List (ℤ × ℤ)) (r c : ℕ)
    (h : ((r : ℤ) - nR, (c : ℤ) - nC) ∈ L) :
    (activateScan jit nR nC s L).grid r c =
      if (s.grid r c).state = CellState.idle ∧ r < s.rows ∧ c < s.cols
      then activatedCell (s.grid r c) (jit r c)
      else s.grid r c := by
  induction L generalizing s with
  | nil => exact absurd h (List.not_mem_nil _)
  | cons d L ih =>
    rw [activateScan_cons]
    by_cases hd : d = ((r : ℤ) - nR, (c : ℤ) - nC)
    · subst hd
      have hr : nR + ((r : ℤ) - nR) = (r : ℤ) := by ring
      have hc : nC + ((c : ℤ) - nC) = (c : ℤ) := by ring
      simp only [hr, hc]
      by_cases hcond : (s.grid r c).state = CellState.idle ∧ r < s.rows ∧ c < s.cols
      · rw [if_pos hcond]
        have hhit := activateAt_grid_hit jit s r c
        rw [if_pos ⟨hcond.2.1, hcond.2.2, hcond.1⟩] at hhit
        rw [activateScan_grid_not_idle _ _ _ _ _ _ _
          (by rw [hhit, activateAt_rows, activateAt_cols]; simp [activatedCell]), hhit]
      · rw [if_neg hcond]
        have hhit := activateAt_grid_hit jit s r c
        rw [if_neg (by tauto)] at hhit
        rw [activateScan_grid_not_idle _ _ _ _ _ _ _
          (by rw [hhit, activateAt_rows, activateAt_cols]; exact hcond), hhit]
    · have hne : ¬(nR + d.1 = (r : ℤ) ∧ nC + d.2 = (c : ℤ)) := by
        rintro ⟨h1, h2⟩
        refine hd ?_
        obtain ⟨d1, d2⟩ := d
        simp only [Prod.mk.injEq]
        constructor <;> [omega; omega]
      have hstep := activateAt_grid_ne jit s (nR + d.1) (nC + d.2) r c hne
      have hmem : ((r : ℤ) - nR, (c : ℤ) - nC) ∈ L := by
        rcases List.mem_cons.mp h with h0 | h0
        · exact absurd h0.symm hd
        · exact h0
      rw [ih _ hmem, hstep, activateAt_rows, activateAt_cols]

theorem activateScan_dirty_mono (jit : ℕ → ℕ → ℕ) (nR nC : ℤ)
    (s : EngineState) (L : List (ℤ × ℤ)) {k : ℕ} (h : k ∈ s.dirty) :
    k ∈ (activateScan jit nR nC s L).dirty := by
  induction L generalizing s with
  | nil => exact h
  | cons d L ih =>
    rw [activateScan_cons]
    exact ih _ (activateAt_dirty_mono jit s _ _ h)

theorem activateScan_dirty_nodup (jit : ℕ → ℕ → ℕ) (nR nC : ℤ)
    (s : EngineState) (L : List (ℤ × ℤ)) (h : s.dirty.Nodup) :
    (activateScan jit nR nC s L).dirty.Nodup := by
  induction L generalizing s with
  | nil => exact h
  | cons d L ih =>
    rw [activateScan_cons]
    exact ih _ (activateAt_dirty_nodup jit s _ _ h)

theorem activateScan_dirty_hit (jit : ℕ → ℕ → ℕ) (nR nC : ℤ)
    (s : EngineState) (L : List (ℤ × ℤ)) (r c : ℕ)
    (hmem : ((r : ℤ) - nR, (c : ℤ) - nC) ∈ L)
    (hidle : (s.grid r c).state = CellState.idle)
    (hr : r < s.rows) (hc : c < s.cols) :
    key r c ∈ (activateScan jit nR nC s L).dirty := by
  induction L generalizing s with
  | nil => exact absurd hmem (List.not_mem_nil _)
  | cons d L ih =>
    rw [activateScan_cons]
    by_cases hd : d = ((r : ℤ) - nR, (c : ℤ) - nC)
    · subst hd
      have hrr : nR + ((r : ℤ) - nR) = (r : ℤ) := by ring
      have hcc : nC + ((c : ℤ) - nC) = (c : ℤ) := by ring
      simp only [hrr, hcc]
      exact activateScan_dirty_mono jit nR nC _ L
        (activateAt_dirty_hit jit s r c hr hc hidle)
    · have hne : ¬(nR + d.1 = (r : ℤ) ∧ nC + d.2 = (c : ℤ)) := by
        rintro ⟨h1, h2⟩
        refine hd ?_
        obtain ⟨d1, d2⟩ := d
        simp only [Prod.mk.injEq]
        constructor <;> [omega; omega]
      have hmem' : ((r : ℤ) - nR, (c : ℤ) - nC) ∈ L := by
        rcases List.mem_cons.mp hmem with h0 | h0
        · exact absurd h0.symm hd
        · exact h0
      refine ih _ hmem' ?_ ?_ ?_
      · rw [activateAt_grid_ne jit s _ _ r c hne]
        exact hidle
      · rw [activateAt_rows]
        exact hr
      · rw [activateAt_cols]
        exact hc

/-! ### `onMouseMove` characterization -/

theorem mem_scanOffsets {a b : ℤ} :
    ((a, b) ∈ scanOffsets) ↔ |a| ≤ 1 ∧ |b| ≤ 1 := by
  simp only [scanOffsets, List.mem_cons, List.not_mem_nil, or_false,
    Prod.mk.injEq, abs_le]
  omega

theorem onMouseMove_grid (jit : ℕ → ℕ → ℕ) (mx my : ℚ) (s : EngineState)
    (r c : ℕ) :
    (onMouseMove jit mx my s).grid r c =
      if ¬(⌊mx / CELL_SIZE⌋ = s.mouseCol ∧ ⌊my / CELL_SIZE⌋ = s.mouseRow)
          ∧ |(r : ℤ) - ⌊my / CELL_SIZE⌋| ≤ 1 ∧ |(c : ℤ) - ⌊mx / CELL_SIZE⌋| ≤ 1
          ∧ (s.grid r c).state = CellState.idle ∧ r < s.rows ∧ c < s.cols
      then activatedCell (s.grid r c) (jit r c)
      else s.grid r c := by
  simp only [onMouseMove]
  by_cases hguard : ⌊mx / CELL_SIZE⌋ = s.mouseCol ∧ ⌊my / CELL_SIZE⌋ = s.mouseRow
  · rw [if_pos hguard, if_neg (by tauto)]
  · rw [if_neg hguard]
    set s1 : EngineState := { s with mouseCol := ⌊mx / CELL_SIZE⌋, mouseRow := ⌊my / CELL_SIZE⌋ }
    by_cases hmem : ((r : ℤ) - ⌊my / CELL_SIZE⌋, (c : ℤ) - ⌊mx / CELL_SIZE⌋) ∈ scanOffsets
    · rw [activateScan_grid_mem jit _ _ s1 scanOffsets r c hmem]
      have habs := mem_scanOffsets.mp hmem
      by_cases hcond : (s.grid r c).state = CellState.idle ∧ r < s.rows ∧ c < s.cols
      · rw [if_pos hcond, if_pos ⟨hguard, habs.1, habs.2, hcond⟩]
      · rw [if_neg hcond, if_neg (by tauto)]
    · rw [activateScan_grid_not_mem jit _ _ s1 scanOffsets r c hmem]
      rw [if_neg (fun hcon => hmem (mem_scanOffsets.mpr ⟨hcon.2.1, hcon.2.2.1⟩))]

theorem onMouseMove_rows (jit : ℕ → ℕ → ℕ) (mx my : ℚ) (s : EngineState) :
    (onMouseMove jit mx my s).rows = s.rows := by
  simp only [onMouseMove]
  split
  · rfl
  · rw [activateScan_rows]

theorem onMouseMove_cols (jit : ℕ → ℕ → ℕ) (mx my : ℚ) (s : EngineState) :
    (onMouseMove jit mx my s).cols = s.cols := by
  simp only [onMouseMove]
  split
  · rfl
  · rw [activateScan_cols]

theorem onMouseMove_dirty_mono (jit : ℕ → ℕ → ℕ) (mx my : ℚ) (s : EngineState)
    {k : ℕ} (h : k ∈ s.dirty) : k ∈ (onMouseMove jit mx my s).dirty := by
  simp only [onMouseMove]
  split
  · exact h
  · exact activateScan_dirty_mono jit _ _ _ scanOffsets h

theorem onMouseMove_dirty_nodup (jit : ℕ → ℕ → ℕ) (mx my : ℚ) (s : EngineState)
    (h : s.dirty.Nodup) : (onMouseMove jit mx my s).dirty.Nodup := by
  simp only [onMouseMove]
  split
  · exact h
  · exact activateScan_dirty_nodup jit _ _ _ scanOffsets h

theorem onMouseMove_dirty_hit (jit : ℕ → ℕ → ℕ) (mx my : ℚ) (s : EngineState)
    (r c : ℕ)
    (hguard : ¬(⌊mx / CELL_SIZE⌋ = s.mouseCol ∧ ⌊my / CELL_SIZE⌋ = s.mouseRow))
    (hblock : |(r : ℤ) - ⌊my / CELL_SIZE⌋| ≤ 1 ∧ |(c : ℤ) - ⌊mx / CELL_SIZE⌋| ≤ 1)
    (hidle : (s.grid r c).state = CellState.idle)
    (hr : r < s.rows) (hc : c < s.cols) :
    key r c ∈ (onMouseMove jit mx my s).dirty := by
  simp only [onMouseMove]
  rw [if_neg hguard]
  exact activateScan_dirty_hit jit _ _ _ scanOffsets r c
    (mem_scanOffsets.mpr hblock) hidle hr hc

/-! ### `animate` characterization -/

/-- Whether one `animate` pass pushes key `k` onto `toRemove`, read off
the grid as it stood when `k` is processed: stale keys always, otherwise
the removal flag of the per-cell step. -/
def removeFlag (o : ℕ → ℕ) (dst : Bool) (now : ℚ) (rows cols : ℕ)
    (g : Grid) (k : ℕ) : Bool :=
  if rows ≤ decodeRow k ∨ cols ≤ decodeCol k then true
  else (tickCell (o k) dst now (g (decodeRow k) (decodeCol k))).2

theorem processKey_stale (o : ℕ → ℕ) (now : ℚ) (dst : Bool) (rows cols : ℕ)
    (g : Grid) (rem : List ℕ) (k : ℕ)
    (h : rows ≤ decodeRow k ∨ cols ≤ decodeCol k) :
    processKey o now dst rows cols (g, rem) k = (g, rem ++ [k]) := by
  simp only [processKey, if_pos h]

theorem processKey_inb (o : ℕ → ℕ) (now : ℚ) (dst : Bool) (rows cols : ℕ)
    (g : Grid) (rem : List ℕ) (k : ℕ)
    (h : ¬(rows ≤ decodeRow k ∨ cols ≤ decodeCol k)) :
    processKey o now dst rows cols (g, rem) k =
      (setCell g (decodeRow k) (decodeCol k)
        (tickCell (o k) dst now (g (decodeRow k) (decodeCol k))).1,
       if (tickCell (o k) dst now (g (decodeRow k) (decodeCol k))).2
       then rem ++ [k] else rem) := by
  simp only [processKey, if_neg h]

theorem tickFold_grid_oob (o : ℕ → ℕ) (now : ℚ) (dst : Bool) (rows cols : ℕ)
    (L : List ℕ) (g : Grid) (rem : List ℕ) (r c : ℕ)
    (h : ¬(r < rows ∧ c < cols)) :
    (L.foldl (processKey o now dst rows cols) (g, rem)).1 r c = g r c := by
  induction L generalizing g rem with
  | nil => rfl
  | cons k L ih =>
    rw [List.foldl_cons]
    by_cases hst : rows ≤ decodeRow k ∨ cols ≤ decodeCol k
    · rw [processKey_stale _ _ _ _ _ _ _ _ hst, ih]
    · rw [processKey_inb _ _ _ _ _ _ _ _ hst, ih, setCell_ne]
      rintro ⟨rfl, rfl⟩
      exact h ⟨by omega, by omega⟩

theorem tickFold_grid_char (o : ℕ → ℕ) (now : ℚ) (dst : Bool) (rows cols : ℕ)
    (L : List ℕ) (g : Grid) (rem : List ℕ) (r c : ℕ)
    (hnd : L.Nodup) (hc : c < 10000) :
    (L.foldl (processKey o now dst rows cols) (g, rem)).1 r c =
      if key r c ∈ L ∧ r < rows ∧ c < cols
      then (tickCell (o (key r c)) dst now (g r c)).1
      else g r c := by
  induction L generalizing g rem with
  | nil =>
    rw [if_neg (by simp)]
    rfl
  | cons k L ih =>
    rw [List.foldl_cons]
    have hnd' : L.Nodup := hnd.of_cons
    by_cases hk : k = key r c
    · subst hk
      have hdr : decodeRow (key r c) = r := (decode_key r c hc).1
      have hdc : decodeCol (key r c) = c := (decode_key r c hc).2
      have hknotin : key r c ∉ L := (List.nodup_cons.mp hnd).1
      by_cases hb : r < rows ∧ c < cols
      · rw [processKey_inb _ _ _ _ _ _ _ _ (by omega), hdr, hdc]
        rw [ih _ _ hnd', if_neg (by tauto), setCell_self]
        rw [if_pos ⟨List.mem_cons_self _ _, hb⟩]
      · rw [processKey_stale _ _ _ _ _ _ _ _ (by omega)]
        rw [ih _ _ hnd', if_neg (by tauto), if_neg (by tauto)]
    · have hdk : ¬(decodeRow k = r ∧ decodeCol k = c) := by
        rintro ⟨h1, h2⟩
        exact hk (by rw [← key_decode k, h1, h2])
      have hmem : (key r c ∈ k :: L) ↔ (key r c ∈ L) := by
        rw [List.mem_cons]
        exact or_iff_right (fun h0 => hk h0.symm)
      have hdk' : ¬(r = decodeRow k ∧ c = decodeCol k) := by
        rintro ⟨h1, h2⟩
        exact hdk ⟨h1.symm, h2.symm⟩
      by_cases hst : rows ≤ decodeRow k ∨ cols ≤ decodeCol k
      · rw [processKey_stale _ _ _ _ _ _ _ _ hst, ih _ _ hnd']
        exact if_congr (and_congr_left' hmem.symm) rfl rfl
      · rw [processKey_inb _ _ _ _ _ _ _ _ hst, ih _ _ hnd',
          setCell_ne _ _ _ _ _ _ hdk']
        exact if_congr (and_congr_left' hmem.symm) rfl rfl

theorem tickFold_rem_char (o : ℕ → ℕ) (now : ℚ) (dst : Bool) (rows cols : ℕ)
    (L : List ℕ) (g : Grid) (rem : List ℕ) (hnd : L.Nodup) :
    (L.foldl (processKey o now dst rows cols) (g, rem)).2 =
      rem ++ L.filter (removeFlag o dst now rows cols g) := by
  induction L generalizing g rem with
  | nil => simp
  | cons k L ih =>
    rw [List.foldl_cons]
    have hnd' : L.Nodup := hnd.of_cons
    have hknotin : k ∉ L := (List.nodup_cons.mp hnd).1
    by_cases hst : rows ≤ decodeRow k ∨ cols ≤ decodeCol k
    · rw [processKey_stale _ _ _ _ _ _ _ _ hst, ih _ _ hnd']
      rw [List.filter_cons_of_pos (by simp [removeFlag, if_pos hst])]
      simp [List.append_assoc]
    · rw [processKey_inb _ _ _ _ _ _ _ _ hst, ih _ _ hnd']
      have hfilter : L.filter (removeFlag o dst now rows cols
          (setCell g (decodeRow k) (decodeCol k)
            (tickCell (o k) dst now (g (decodeRow k) (decodeCol k))).1)) =
          L.filter (removeFlag o dst now rows cols g) := by
        refine List.filter_congr ?_
        intro k' hk'
        have hkk : k' ≠ k := fun h0 => hknotin (h0 ▸ hk')
        have hdk : ¬(decodeRow k' = decodeRow k ∧ decodeCol k' = decodeCol k) := by
          rintro ⟨h1, h2⟩
          exact hkk (decode_inj h1 h2)
        simp only [removeFlag, setCell_ne _ _ _ _ _ _ hdk]
      rw [hfilter]
      have hflag : removeFlag o dst now rows cols g k =
          (tickCell (o k) dst now (g (decodeRow k) (decodeCol k))).2 := by
        simp [removeFlag, if_neg hst]
      by_cases hrm : (tickCell (o k) dst now (g (decodeRow k) (decodeCol k))).2
      · rw [if_pos hrm, List.filter_cons_of_pos (by rw [hflag]; exact hrm)]
        simp [List.append_assoc]
      · rw [if_neg hrm, List.filter_cons_of_neg (by rw [hflag]; simpa using hrm)]

theorem animate_cols (o : ℕ → ℕ) (now : ℚ) (s : EngineState) :
    (animate o now s).cols = s.cols := rfl

theorem animate_rows (o : ℕ → ℕ) (now : ℚ) (s : EngineState) :
    (animate o now s).rows = s.rows := rfl

theorem animate_lastFrame (o : ℕ → ℕ) (now : ℚ) (s : EngineState) :
    (animate o now s).lastFrame =
      if decide (FRAME_INTERVAL ≤ now - s.lastFrame) then now else s.lastFrame := rfl

theorem animate_grid_char (o : ℕ → ℕ) (now : ℚ) (s : EngineState) (r c : ℕ)
    (hnd : s.dirty.Nodup) (hc : c < 10000) :
    (animate o now s).grid r c =
      if key r c ∈ s.dirty ∧ r < s.rows ∧ c < s.cols
      then (tickCell (o (key r c)) (decide (FRAME_INTERVAL ≤ now - s.lastFrame))
        now (s.grid r c)).1
      else s.grid r c := by
  simp only [animate]
  exact tickFold_grid_char _ _ _ _ _ _ _ _ _ _ hnd hc

theorem animate_grid_oob (o : ℕ → ℕ) (now : ℚ) (s : EngineState) (r c : ℕ)
    (h : ¬(r < s.rows ∧ c < s.cols)) :
    (animate o now s).grid r c = s.grid r c := by
  simp only [animate]
  exact tickFold_grid_oob _ _ _ _ _ _ _ _ _ _ h

theorem animate_dirty_mem (o : ℕ → ℕ) (now : ℚ) (s : EngineState) (k : ℕ)
    (hnd : s.dirty.Nodup) :
    (k ∈ (animate o now s).dirty ↔ k ∈ s.dirty ∧
      removeFlag o (decide (FRAME_INTERVAL ≤ now - s.lastFrame)) now
        s.rows s.cols s.grid k = false) := by
  simp only [animate]
  rw [tickFold_rem_char _ _ _ _ _ _ _ _ hnd, List.nil_append]
  rw [List.mem_filter]
  constructor
  · rintro ⟨hmem, hdec⟩
    have hnot := of_decide_eq_true hdec
    refine ⟨hmem, ?_⟩
    by_contra hflag
    exact hnot (List.mem_filter.mpr ⟨hmem, by simpa using hflag⟩)
  · rintro ⟨hmem, hflag⟩
    refine ⟨hmem, decide_eq_true ?_⟩
    intro hcon
    rw [(List.mem_filter.mp hcon).2] at hflag
    exact Bool.noConfusion hflag

theorem animate_dirty_subset (o : ℕ → ℕ) (now : ℚ) (s : EngineState) (k : ℕ)
    (h : k ∈ (animate o now s).dirty) : k ∈ s.dirty := by
  simp only [animate] at h
  exact (List.mem_filter.mp h).1

theorem animate_dirty_nodup (o : ℕ → ℕ) (now : ℚ) (s : EngineState)
    (hnd : s.dirty.Nodup) : (animate o now s).dirty.Nodup := by
  simp only [animate]
  exact hnd.filter _

/-! ### `tickCell` case analysis -/

theorem tickCell_idle (u : ℕ) (dst : Bool) (now : ℚ) (cell : Cell)
    (hst : cell.state = CellState.idle) :
    tickCell u dst now cell = (cell, true) := by
  simp only [tickCell, hst]

theorem tickCell_scramble_noST (u : ℕ) (now : ℚ) (cell : Cell)
    (hst : cell.state = CellState.scramble) :
    tickCell u false now cell = (cell, false) := by
  simp only [tickCell, hst, Bool.false_eq_true, if_false]

theorem tickCell_scramble_cont (u : ℕ) (now : ℚ) (cell : Cell)
    (hst : cell.state = CellState.scramble) (hm : 2 ≤ cell.framesLeft) :
    tickCell u true now cell =
      ({ cell with
          symbol := some (randSymbol u)
          color := HOVER_COLOR
          framesLeft := cell.framesLeft - 1 }, false) := by
  simp only [tickCell, hst, if_true]
  rw [if_neg (by omega)]

theorem tickCell_scramble_done (u : ℕ) (now : ℚ) (cell : Cell)
    (hst : cell.state = CellState.scramble) (hm : cell.framesLeft ≤ 1) :
    tickCell u true now cell =
      ({ cell with
          symbol := cell.origSymbol
          color := HOVER_COLOR
          state := CellState.settling
          framesLeft := cell.framesLeft - 1
          settleStart := now }, false) := by
  simp only [tickCell, hst, if_true]
  rw [if_pos (by omega)]

theorem tickCell_settling_cont (u : ℕ) (dst : Bool) (now : ℚ) (cell : Cell)
    (hst : cell.state = CellState.settling)
    (ht : ¬(1 : ℚ) ≤ min ((now - cell.settleStart) / SETTLE_DURATION) 1) :
    tickCell u dst now cell =
      ({ cell with
          color := lerpColor HOVER_COLOR BASE_COLOR
            (easeOutCubic (min ((now - cell.settleStart) / SETTLE_DURATION) 1)) },
       false) := by
  simp only [tickCell, hst]
  rw [if_neg ht]

theorem tickCell_settling_done (u : ℕ) (dst : Bool) (now : ℚ) (cell : Cell)
    (hst : cell.state = CellState.settling)
    (ht : (1 : ℚ) ≤ min ((now - cell.settleStart) / SETTLE_DURATION) 1) :
    tickCell u dst now cell =
      ({ cell with
          color := BASE_COLOR
          state := CellState.idle
          origSymbol := none }, true) := by
  simp only [tickCell, hst]
  rw [if_pos ht]

/-- For every cell, one `animate` pass leaves it idle exactly when it
pushes its key onto `toRemove`. -/
theorem tickCell_post_idle_iff (u : ℕ) (dst : Bool) (now : ℚ) (cell : Cell) :
    ((tickCell u dst now cell).1.state = CellState.idle ↔
      (tickCell u dst now cell).2 = true) := by
  cases hst : cell.state
  · rw [tickCell_idle u dst now cell hst]
    simp [hst]
  · cases dst
    · rw [tickCell_scramble_noST u now cell hst]
      simp [hst]
    · by_cases hm : cell.framesLeft ≤ 1
      · rw [tickCell_scramble_done u now cell hst hm]
        simp
      · rw [tickCell_scramble_cont u now cell hst (by omega)]
        simp [hst]
  · by_cases ht : (1 : ℚ) ≤ min ((now - cell.settleStart) / SETTLE_DURATION) 1
    · rw [tickCell_settling_done u dst now cell hst ht]
      simp
    · rw [tickCell_settling_cont u dst now cell hst ht]
      simp [hst]

/-! ### The invariant along reachable states -/

theorem inv_buildGrid (symOf : ℕ → ℕ → ℕ) (w h : ℚ) (s : EngineState)
    (hnd : s.dirty.Nodup) (hw : gridCols w ≤ 10000) :
    EngineInv (buildGrid symOf w h s) := by
  refine ⟨hw, hnd, ?_⟩
  intro r c _ _ hbad
  exact absurd rfl hbad

theorem inv_onMouseMove (jit : ℕ → ℕ → ℕ) (mx my : ℚ) (s : EngineState)
    (hInv : EngineInv s) : EngineInv (onMouseMove jit mx my s) := by
  obtain ⟨hcols, hnd, hdirty⟩ := hInv
  refine ⟨by rw [onMouseMove_cols]; exact hcols,
    onMouseMove_dirty_nodup jit mx my s hnd, ?_⟩
  intro r c hr hc hbad
  rw [onMouseMove_rows] at hr
  rw [onMouseMove_cols] at hc
  rw [onMouseMove_grid] at hbad
  by_cases hcond : ¬(⌊mx / CELL_SIZE⌋ = s.mouseCol ∧ ⌊my / CELL_SIZE⌋ = s.mouseRow)
      ∧ |(r : ℤ) - ⌊my / CELL_SIZE⌋| ≤ 1 ∧ |(c : ℤ) - ⌊mx / CELL_SIZE⌋| ≤ 1
      ∧ (s.grid r c).state = CellState.idle ∧ r < s.rows ∧ c < s.cols
  · exact onMouseMove_dirty_hit jit mx my s r c hcond.1
      ⟨hcond.2.1, hcond.2.2.1⟩ hcond.2.2.2.1 hr hc
  · rw [if_neg hcond] at hbad
    exact onMouseMove_dirty_mono jit mx my s (hdirty r c hr hc hbad)

theorem inv_onMouseLeave (s : EngineState) (hInv : EngineInv s) :
    EngineInv (onMouseLeave s) := hInv

theorem inv_animate (o : ℕ → ℕ) (now : ℚ) (s : EngineState)
    (hInv : EngineInv s) : EngineInv (animate o now s) := by
  obtain ⟨hcols, hnd, hdirty⟩ := hInv
  refine ⟨hcols, animate_dirty_nodup o now s hnd, ?_⟩
  intro r c hr hc hbad
  rw [animate_rows] at hr
  rw [animate_cols] at hc
  have hc10k : c < 10000 := lt_of_lt_of_le hc hcols
  rw [animate_grid_char o now s r c hnd hc10k] at hbad
  by_cases hmem : key r c ∈ s.dirty
  · rw [if_pos ⟨hmem, hr, hc⟩] at hbad
    have hkeep : (tickCell (o (key r c))
        (decide (FRAME_INTERVAL ≤ now - s.lastFrame)) now (s.grid r c)).2 = false := by
      by_contra hcon
      exact hbad ((tickCell_post_idle_iff _ _ _ _).mpr (by
        cases h2 : (tickCell (o (key r c))
            (decide (FRAME_INTERVAL ≤ now - s.lastFrame)) now (s.grid r c)).2
        · exact absurd h2 hcon
        · rfl))
    rw [animate_dirty_mem o now s (key r c) hnd]
    refine ⟨hmem, ?_⟩
    rw [removeFlag, if_neg (by
      rw [(decode_key r c hc10k).1, (decode_key r c hc10k).2]
      omega)]
    rw [(decode_key r c hc10k).1, (decode_key r c hc10k).2]
    exact hkeep
  · rw [if_neg (by tauto)] at hbad
    exact absurd (hdirty r c hr hc hbad) hmem

theorem reach_inv {s : EngineState} (h : Reach s) : EngineInv s := by
  induction h with
  | init symOf w h hw => exact inv_buildGrid symOf w h emptyState List.nodup_nil hw
  | mouse jit mx my hs ih => exact inv_onMouseMove jit mx my _ ih
  | leave hs ih => exact inv_onMouseLeave _ ih
  | frame o now hs ih => exact inv_animate o now _ ih
  | rebuild symOf w h hw hs ih => exact inv_buildGrid symOf w h _ ih.2.1 hw

/-! ## Evaluation helpers for concrete inputs
(the rational arithmetic in `gridCols`/`gridRows` and the pointer-to-cell
floor division is evaluated here once, by proof) -/

theorem buildGrid_rows (f : ℕ → ℕ → ℕ) (w h : ℚ) (s : EngineState) :
    (buildGrid f w h s).rows = gridRows h := rfl

theorem buildGrid_cols (f : ℕ → ℕ → ℕ) (w h : ℚ) (s : EngineState) :
    (buildGrid f w h s).cols = gridCols w := rfl

theorem buildGrid_grid (f : ℕ → ℕ → ℕ) (w h : ℚ) (s : EngineState) (r c : ℕ) :
    (buildGrid f w h s).grid r c = freshCell (f r c) := rfl

theorem buildGrid_dirty (f : ℕ → ℕ → ℕ) (w h : ℚ) (s : EngineState) :
    (buildGrid f w h s).dirty = s.dirty := rfl

theorem eval_gridCols_22 : gridCols 22 = 2 := by
  rw [gridCols, show ⌈(22 : ℚ) / CELL_SIZE⌉ = 1 by norm_num [CELL_SIZE]]
  decide

theorem eval_gridRows_22 : gridRows 22 = 2 := by
  rw [gridRows, show ⌈(22 : ℚ) / CELL_SIZE⌉ = 1 by norm_num [CELL_SIZE]]
  decide

theorem eval_gridCols_198 : gridCols 198 = 10 := by
  rw [gridCols, show ⌈(198 : ℚ) / CELL_SIZE⌉ = 9 by norm_num [CELL_SIZE]]
  decide

theorem eval_gridRows_198 : gridRows 198 = 10 := by
  rw [gridRows, show ⌈(198 : ℚ) / CELL_SIZE⌉ = 9 by norm_num [CELL_SIZE]]
  decide

theorem eval_floor_0 : ⌊(0 : ℚ) / CELL_SIZE⌋ = 0 := by
  norm_num

theorem eval_floor_121 : ⌊(121 : ℚ) / CELL_SIZE⌋ = 5 := by
  rw [CELL_SIZE]
  norm_num

theorem eval_witnessMoved_cell :
    witnessMoved.grid 0 0 = activatedCell (freshCell 0) 7 := by
  rw [witnessMoved, onMouseMove_grid]
  have hm1 : witnessGrid22.mouseCol = -1 := rfl
  have hm2 : witnessGrid22.mouseRow = -1 := rfl
  rw [if_pos ⟨by rw [eval_floor_0, hm1]; decide,
    by rw [eval_floor_0]; decide,
    by rw [eval_floor_0]; decide,
    rfl,
    by rw [witnessGrid22, buildGrid_rows, eval_gridRows_22]; decide,
    by rw [witnessGrid22, buildGrid_cols, eval_gridCols_22]; decide⟩]
  rfl

/-! ## Claim theorems -/

/-- C1 (confirmed): after every scheduler tick completes (including its
deferred removals), every cell inside the current grid bounds is idle
exactly when its packed coordinate key is absent from the dirty set. -/
theorem c1_dirty_redraw_invariant (s : EngineState) (o : ℕ → ℕ) (now : ℚ)
    (r c : ℕ) (hreach : Reach s)
    (hr : r < (animate o now s).rows) (hc : c < (animate o now s).cols) :
    (((animate o now s).grid r c).state = CellState.idle ↔
      key r c ∉ (animate o now s).dirty) := by
  obtain ⟨hcols, hnd, hdirty⟩ := reach_inv hreach
  rw [animate_rows] at hr
  rw [animate_cols] at hc
  have hc10k : c < 10000 := lt_of_lt_of_le hc hcols
  rw [animate_grid_char o now s r c hnd hc10k]
  by_cases hmem : key r c ∈ s.dirty
  · rw [if_pos ⟨hmem, hr, hc⟩, tickCell_post_idle_iff,
      animate_dirty_mem o now s (key r c) hnd]
    have hrf : removeFlag o (decide (FRAME_INTERVAL ≤ now - s.lastFrame)) now
        s.rows s.cols s.grid (key r c) =
        (tickCell (o (key r c)) (decide (FRAME_INTERVAL ≤ now - s.lastFrame))
          now (s.grid r c)).2 := by
      rw [removeFlag, if_neg (by
        rw [(decode_key r c hc10k).1, (decode_key r c hc10k).2]
        omega)]
      rw [(decode_key r c hc10k).1, (decode_key r c hc10k).2]
    rw [hrf]
    constructor
    · intro htrue hcon
      rw [htrue] at hcon
      exact Bool.noConfusion hcon.2
    · intro hcon
      cases h2 : (tickCell (o (key r c)) (decide (FRAME_INTERVAL ≤ now - s.lastFrame))
          now (s.grid r c)).2
      · exact absurd ⟨hmem, h2⟩ hcon
      · rfl
  · rw [if_neg (by tauto)]
    constructor
    · intro _ hpost
      exact hmem (animate_dirty_subset o now s _ hpost)
    · intro _
      by_contra hbad
      exact hmem (hdirty r c hr hc hbad)

/-- Witness for C1 at a concrete reachable state. -/
theorem c1_witness :
    (((animate (fun _ => 0) 50 witnessGrid22).grid 0 0).state = CellState.idle ↔
      key 0 0 ∉ (animate (fun _ => 0) 50 witnessGrid22).dirty) :=
  c1_dirty_redraw_invariant witnessGrid22 (fun _ => 0) 50 0 0
    (Reach.init (fun _ _ => 0) 22 22 (by rw [eval_gridCols_22]; decide))
    (by rw [animate_rows, witnessGrid22, buildGrid_rows, eval_gridRows_22]; decide)
    (by rw [animate_cols, witnessGrid22, buildGrid_cols, eval_gridCols_22]; decide)

/-- C9 (confirmed): decoding `r * 10000 + c` by floor-division and
remainder returns `(r, c)` whenever `c < 10000`, and on that domain the
packing is collision-free. -/
theorem c9_key_roundtrip (r c r' c' : ℕ) (hc : c < 10000) (hc' : c' < 10000) :
    (decodeRow (key r c) = r ∧ decodeCol (key r c) = c) ∧
      (key r c = key r' c' → r = r' ∧ c = c') := by
  simp only [key, decodeRow, decodeCol]
  omega

/-- Witness for C9 at concrete coordinates. -/
theorem c9_witness :
    ((decodeRow (key 3 7) = 3 ∧ decodeCol (key 3 7) = 7) ∧
      (key 3 7 = key 2 9 → 3 = 2 ∧ 7 = 9)) :=
  c9_key_roundtrip 3 7 2 9 (by decide) (by decide)

/-- C6 (confirmed): a pointer-move activation pass leaves every cell that
is currently scrambling or settling completely unchanged (all six
fields); only idle cells are modified by activation. -/
theorem c6_reactivation_idempotent (jit : ℕ → ℕ → ℕ) (mx my : ℚ)
    (s : EngineState) (r c : ℕ)
    (h : (s.grid r c).state = CellState.scramble ∨
      (s.grid r c).state = CellState.settling) :
    (onMouseMove jit mx my s).grid r c = s.grid r c := by
  rw [onMouseMove_grid]
  rw [if_neg ?_]
  rintro ⟨-, -, -, hidle, -⟩
  rcases h with h | h <;> rw [h] at hidle <;> exact CellState.noConfusion hidle

/-- Witness for C6: re-activating a freshly scrambled cell changes nothing. -/
theorem c6_witness :
    (onMouseMove (fun _ _ => 2) 0 0 witnessMoved).grid 0 0 = witnessMoved.grid 0 0 :=
  c6_reactivation_idempotent (fun _ _ => 2) 0 0 witnessMoved 0 0
    (Or.inl (by rw [eval_witnessMoved_cell]; rfl))

/-- C7 (confirmed): a pointer move that lands in a new grid cell turns
exactly the idle in-bounds cells of the 3×3 block around the new cell
into scrambling cells, and every cell outside the block is untouched
(out-of-bounds offsets affect nothing, since only in-bounds cells exist). -/
theorem c7_neighborhood_activation (jit : ℕ → ℕ → ℕ) (mx my : ℚ)
    (s : EngineState)
    (hguard : ¬(⌊mx / CELL_SIZE⌋ = s.mouseCol ∧ ⌊my / CELL_SIZE⌋ = s.mouseRow)) :
    ∀ r c, r < s.rows → c < s.cols →
      ((((onMouseMove jit mx my s).grid r c).state = CellState.scramble ↔
        ((s.grid r c).state = CellState.scramble ∨
          (|(r : ℤ) - ⌊my / CELL_SIZE⌋| ≤ 1 ∧ |(c : ℤ) - ⌊mx / CELL_SIZE⌋| ≤ 1 ∧
            (s.grid r c).state = CellState.idle))) ∧
       (¬(|(r : ℤ) - ⌊my / CELL_SIZE⌋| ≤ 1 ∧ |(c : ℤ) - ⌊mx / CELL_SIZE⌋| ≤ 1) →
        (onMouseMove jit mx my s).grid r c = s.grid r c)) := by
  intro r c hr hc
  rw [onMouseMove_grid]
  by_cases hcond : ¬(⌊mx / CELL_SIZE⌋ = s.mouseCol ∧ ⌊my / CELL_SIZE⌋ = s.mouseRow)
      ∧ |(r : ℤ) - ⌊my / CELL_SIZE⌋| ≤ 1 ∧ |(c : ℤ) - ⌊mx / CELL_SIZE⌋| ≤ 1
      ∧ (s.grid r c).state = CellState.idle ∧ r < s.rows ∧ c < s.cols
  · rw [if_pos hcond]
    constructor
    · constructor
      · intro _
        exact Or.inr ⟨hcond.2.1, hcond.2.2.1, hcond.2.2.2.1⟩
      · intro _
        rfl
    · intro hnb
      exact absurd ⟨hcond.2.1, hcond.2.2.1⟩ hnb
  · rw [if_neg hcond]
    refine ⟨?_, fun _ => rfl⟩
    constructor
    · exact fun h => Or.inl h
    · rintro (h | ⟨hb1, hb2, hidle⟩)
      · exact h
      · exact absurd ⟨hguard, hb1, hb2, hidle, hr, hc⟩ hcond

/-- Witness for C7: the pointer enters cell (5,5) of the 10×10 grid built
from a 198-px viewport; the statement is instantiated at cell (4,6),
which lies in the 3×3 block rows 4–6 / cols 4–6. -/
theorem c7_witness :
    ((((onMouseMove (fun _ _ => 0) 121 121 witnessGrid198).grid 4 6).state
        = CellState.scramble ↔
      ((witnessGrid198.grid 4 6).state = CellState.scramble ∨
        (|(4 : ℤ) - ⌊(121 : ℚ) / CELL_SIZE⌋| ≤ 1 ∧ |(6 : ℤ) - ⌊(121 : ℚ) / CELL_SIZE⌋| ≤ 1 ∧
          (witnessGrid198.grid 4 6).state = CellState.idle))) ∧
     (¬(|(4 : ℤ) - ⌊(121 : ℚ) / CELL_SIZE⌋| ≤ 1 ∧ |(6 : ℤ) - ⌊(121 : ℚ) / CELL_SIZE⌋| ≤ 1) →
      (onMouseMove (fun _ _ => 0) 121 121 witnessGrid198).grid 4 6 =
        witnessGrid198.grid 4 6)) :=
  c7_neighborhood_activation (fun _ _ => 0) 121 121 witnessGrid198
    (by
      rw [eval_floor_121]
      have hm1 : witnessGrid198.mouseCol = -1 := rfl
      have hm2 : witnessGrid198.mouseRow = -1 := rfl
      rw [hm1, hm2]
      decide)
    4 6
    (by rw [witnessGrid198, buildGrid_rows, eval_gridRows_198]; decide)
    (by rw [witnessGrid198, buildGrid_cols, eval_gridCols_198]; decide)

/-- C10 (confirmed): whenever a pointer-move pass changes a cell's
`framesLeft`, the new value is `SCRAMBLE_FRAMES` plus a jitter below 3,
i.e. an integer in `[6, 8]`; in particular it is at least 1, so an
activated cell always scrambles at least once before it can settle. -/
theorem c10_jitter_bound (jit : ℕ → ℕ → ℕ) (mx my : ℚ) (s : EngineState)
    (r c : ℕ)
    (h : ((onMouseMove jit mx my s).grid r c).framesLeft ≠ (s.grid r c).framesLeft) :
    SCRAMBLE_FRAMES ≤ ((onMouseMove jit mx my s).grid r c).framesLeft ∧
      ((onMouseMove jit mx my s).grid r c).framesLeft ≤ SCRAMBLE_FRAMES + 2 ∧
      1 ≤ ((onMouseMove jit mx my s).grid r c).framesLeft ∧
      SCRAMBLE_FRAMES = 6 := by
  rw [onMouseMove_grid] at h ⊢
  by_cases hcond : ¬(⌊mx / CELL_SIZE⌋ = s.mouseCol ∧ ⌊my / CELL_SIZE⌋ = s.mouseRow)
      ∧ |(r : ℤ) - ⌊my / CELL_SIZE⌋| ≤ 1 ∧ |(c : ℤ) - ⌊mx / CELL_SIZE⌋| ≤ 1
      ∧ (s.grid r c).state = CellState.idle ∧ r < s.rows ∧ c < s.cols
  · rw [if_pos hcond]
    have hj : jit r c % 3 < 3 := Nat.mod_lt _ (by norm_num)
    have h6 : SCRAMBLE_FRAMES = 6 := rfl
    simp only [activatedCell]
    refine ⟨?_, ?_, ?_, h6⟩ <;> rw [h6] <;> omega
  · rw [if_neg hcond] at h
    exact absurd rfl h

/-- Witness for C10 at a concrete activation (jitter draw 7, so
`framesLeft = 6 + 7 % 3 = 7`). -/
theorem c10_witness :
    SCRAMBLE_FRAMES ≤ ((onMouseMove (fun _ _ => 7) 0 0 witnessGrid22).grid 0 0).framesLeft ∧
      ((onMouseMove (fun _ _ => 7) 0 0 witnessGrid22).grid 0 0).framesLeft ≤
        SCRAMBLE_FRAMES + 2 ∧
      1 ≤ ((onMouseMove (fun _ _ => 7) 0 0 witnessGrid22).grid 0 0).framesLeft ∧
      SCRAMBLE_FRAMES = 6 :=
  c10_jitter_bound (fun _ _ => 7) 0 0 witnessGrid22 0 0
    (by rw [← witnessMoved, eval_witnessMoved_cell]; decide)

/-- C3 counterexample: the claim asserts that at the moment of activation
the cell's color is set to the hover tone; in the code `onMouseMove`
never touches `color`, so a just-activated (scrambling) cell still holds
its previous color, not the hover tone. -/
theorem c3_counterexample :
    (witnessMoved.grid 0 0).state = CellState.scramble ∧
      (witnessMoved.grid 0 0).color ≠ HOVER_COLOR := by
  rw [eval_witnessMoved_cell]
  exact ⟨rfl, by decide⟩

/-- C3 (corrected): when a pointer move activates an idle in-bounds cell
of the 3×3 block, the cell's current glyph is captured as `origSymbol`,
`framesLeft` is set to `SCRAMBLE_FRAMES` plus the jitter draw `% 3`, and
the state becomes scrambling — but `color` (and `symbol`) are left
unchanged at activation; the hover tone is applied only at the cell's
first scramble-cadence tick. -/
theorem c3_scramble_entry (jit : ℕ → ℕ → ℕ) (mx my : ℚ) (s : EngineState)
    (r c : ℕ)
    (hguard : ¬(⌊mx / CELL_SIZE⌋ = s.mouseCol ∧ ⌊my / CELL_SIZE⌋ = s.mouseRow))
    (hblock : |(r : ℤ) - ⌊my / CELL_SIZE⌋| ≤ 1 ∧ |(c : ℤ) - ⌊mx / CELL_SIZE⌋| ≤ 1)
    (hidle : (s.grid r c).state = CellState.idle)
    (hr : r < s.rows) (hc : c < s.cols) :
    ((onMouseMove jit mx my s).grid r c).origSymbol = (s.grid r c).symbol ∧
    ((onMouseMove jit mx my s).grid r c).framesLeft
      = SCRAMBLE_FRAMES + ((jit r c % 3 : ℕ) : ℤ) ∧
    ((onMouseMove jit mx my s).grid r c).state = CellState.scramble ∧
    ((onMouseMove jit mx my s).grid r c).color = (s.grid r c).color ∧
    ((onMouseMove jit mx my s).grid r c).symbol = (s.grid r c).symbol ∧
    (∀ (u : ℕ) (now : ℚ),
      (tickCell u true now ((onMouseMove jit mx my s).grid r c)).1.color
        = HOVER_COLOR) := by
  rw [onMouseMove_grid, if_pos ⟨hguard, hblock.1, hblock.2, hidle, hr, hc⟩]
  refine ⟨rfl, rfl, rfl, rfl, rfl, ?_⟩
  intro u now
  have hst : (activatedCell (s.grid r c) (jit r c)).state = CellState.scramble := rfl
  by_cases hm : (activatedCell (s.grid r c) (jit r c)).framesLeft ≤ 1
  · rw [tickCell_scramble_done u now _ hst hm]
  · rw [tickCell_scramble_cont u now _ hst (by omega)]

/-- Witness for C3 (corrected) at the concrete activation of cell (0,0). -/
theorem c3_witness :
    (witnessMoved.grid 0 0).origSymbol = (witnessGrid22.grid 0 0).symbol ∧
    (witnessMoved.grid 0 0).framesLeft = SCRAMBLE_FRAMES + ((7 % 3 : ℕ) : ℤ) ∧
    (witnessMoved.grid 0 0).state = CellState.scramble ∧
    (witnessMoved.grid 0 0).color = (witnessGrid22.grid 0 0).color ∧
    (witnessMoved.grid 0 0).symbol = (witnessGrid22.grid 0 0).symbol ∧
    (tickCell 3 true 100 (witnessMoved.grid 0 0)).1.color = HOVER_COLOR := by
  have h := c3_scramble_entry (fun _ _ => 7) 0 0 witnessGrid22 0 0
    (by
      rw [eval_floor_0]
      have hm1 : witnessGrid22.mouseCol = -1 := rfl
      have hm2 : witnessGrid22.mouseRow = -1 := rfl
      rw [hm1, hm2]
      decide)
    (by rw [eval_floor_0]; exact ⟨by decide, by decide⟩)
    rfl
    (by rw [witnessGrid22, buildGrid_rows, eval_gridRows_22]; decide)
    (by rw [witnessGrid22, buildGrid_cols, eval_gridCols_22]; decide)
  exact ⟨h.1, h.2.1, h.2.2.1, h.2.2.2.1, h.2.2.2.2.1, h.2.2.2.2.2 3 100⟩

/-! ### Stale-key and non-interference lemmas for C8 -/

theorem tickFold_rem_extend (o : ℕ → ℕ) (now : ℚ) (dst : Bool) (rows cols : ℕ)
    (L : List ℕ) (g : Grid) (rem : List ℕ) (k : ℕ) (h : k ∈ rem) :
    k ∈ (L.foldl (processKey o now dst rows cols) (g, rem)).2 := by
  induction L generalizing g rem with
  | nil => exact h
  | cons k' L ih =>
    rw [List.foldl_cons]
    by_cases hst : rows ≤ decodeRow k' ∨ cols ≤ decodeCol k'
    · rw [processKey_stale _ _ _ _ _ _ _ _ hst]
      exact ih _ _ (List.mem_append_left _ h)
    · rw [processKey_inb _ _ _ _ _ _ _ _ hst]
      by_cases hrm : (tickCell (o k') dst now (g (decodeRow k') (decodeCol k'))).2
      · rw [if_pos hrm]
        exact ih _ _ (List.mem_append_left _ h)
      · rw [if_neg hrm]
        exact ih _ _ h

theorem tickFold_rem_stale (o : ℕ → ℕ) (now : ℚ) (dst : Bool) (rows cols : ℕ)
    (L : List ℕ) (g : Grid) (rem : List ℕ) (k : ℕ) (hmem : k ∈ L)
    (hstale : rows ≤ decodeRow k ∨ cols ≤ decodeCol k) :
    k ∈ (L.foldl (processKey o now dst rows cols) (g, rem)).2 := by
  induction L generalizing g rem with
  | nil => exact absurd hmem (List.not_mem_nil _)
  | cons k' L ih =>
    rw [List.foldl_cons]
    rcases List.mem_cons.mp hmem with rfl | hmem'
    · rw [processKey_stale _ _ _ _ _ _ _ _ hstale]
      exact tickFold_rem_extend _ _ _ _ _ _ _ _ _
        (List.mem_append_right _ (List.mem_singleton_self _))
    · by_cases hst : rows ≤ decodeRow k' ∨ cols ≤ decodeCol k'
      · rw [processKey_stale _ _ _ _ _ _ _ _ hst]
        exact ih _ _ hmem'
      · rw [processKey_inb _ _ _ _ _ _ _ _ hst]
        by_cases hrm : (tickCell (o k') dst now (g (decodeRow k') (decodeCol k'))).2
        · rw [if_pos hrm]
          exact ih _ _ hmem'
        · rw [if_neg hrm]
          exact ih _ _ hmem'

theorem tickFold_agree (o : ℕ → ℕ) (now : ℚ) (dst : Bool) (rows cols : ℕ)
    (L : List ℕ) (g g' : Grid) (rem : List ℕ)
    (hag : ∀ r c, r < rows → c < cols → g' r c = g r c) :
    (L.foldl (processKey o now dst rows cols) (g', rem)).2 =
      (L.foldl (processKey o now dst rows cols) (g, rem)).2 ∧
    ∀ r c, r < rows → c < cols →
      (L.foldl (processKey o now dst rows cols) (g', rem)).1 r c =
        (L.foldl (processKey o now dst rows cols) (g, rem)).1 r c := by
  induction L generalizing g g' rem with
  | nil => exact ⟨rfl, fun r c hr hc => hag r c hr hc⟩
  | cons k L ih =>
    rw [List.foldl_cons, List.foldl_cons]
    by_cases hst : rows ≤ decodeRow k ∨ cols ≤ decodeCol k
    · rw [processKey_stale _ _ _ _ _ _ _ _ hst, processKey_stale _ _ _ _ _ _ _ _ hst]
      exact ih g g' _ hag
    · have hdr : decodeRow k < rows := by omega
      have hdc : decodeCol k < cols := by omega
      rw [processKey_inb _ _ _ _ _ _ _ _ hst, processKey_inb _ _ _ _ _ _ _ _ hst]
      rw [hag _ _ hdr hdc]
      refine ih _ _ _ ?_
      intro r c hr hc
      by_cases hhit : r = decodeRow k ∧ c = decodeCol k
      · rw [hhit.1, hhit.2, setCell_self, setCell_self]
      · rw [setCell_ne _ _ _ _ _ _ hhit, setCell_ne _ _ _ _ _ _ hhit]
        exact hag r c hr hc

/-- C8 (confirmed): a dirty-set key whose decoded row or column lies
outside the current grid bounds is dropped from the dirty set by the
tick; the tick never writes any out-of-bounds cell; and the tick's
result does not depend on the grid contents outside the bounds (so the
grid is never read there either). -/
theorem c8_stale_key_safety (o : ℕ → ℕ) (now : ℚ) (s : EngineState) (k : ℕ)
    (hmem : k ∈ s.dirty)
    (hstale : s.rows ≤ decodeRow k ∨ s.cols ≤ decodeCol k) :
    k ∉ (animate o now s).dirty ∧
    (∀ r c, ¬(r < s.rows ∧ c < s.cols) → (animate o now s).grid r c = s.grid r c) ∧
    (∀ g' : Grid, (∀ r c, r < s.rows → c < s.cols → g' r c = s.grid r c) →
      (animate o now { s with grid := g' }).dirty = (animate o now s).dirty ∧
      ∀ r c, r < s.rows → c < s.cols →
        (animate o now { s with grid := g' }).grid r c = (animate o now s).grid r c) := by
  refine ⟨?_, ?_, ?_⟩
  · intro hcon
    simp only [animate] at hcon
    have h1 := (List.mem_filter.mp hcon).2
    have h2 : k ∈ (s.dirty.foldl (processKey o now
        (decide (FRAME_INTERVAL ≤ now - s.lastFrame)) s.rows s.cols)
        (s.grid, [])).2 :=
      tickFold_rem_stale _ _ _ _ _ _ _ _ _ hmem hstale
    exact of_decide_eq_true h1 h2
  · intro r c hrc
    exact animate_grid_oob o now s r c hrc
  · intro g' hag
    have h := tickFold_agree o now (decide (FRAME_INTERVAL ≤ now - s.lastFrame))
      s.rows s.cols s.dirty s.grid g' [] hag
    constructor
    · simp only [animate]
      rw [h.1]
    · intro r c hr hc
      simp only [animate]
      exact h.2 r c hr hc

/-- Witness for C8: a 1×1 grid carrying the stale key 20000 (row 2). -/
theorem c8_witness :
    20000 ∉ (animate (fun _ => 0) 7 staleState1).dirty ∧
      (animate (fun _ => 0) 7 staleState1).grid 5 5 = staleState1.grid 5 5 := by
  have h := c8_stale_key_safety (fun _ => 0) 7 staleState1 20000
    (by decide) (by decide)
  exact ⟨h.1, h.2.1 5 5 (by decide)⟩

/-! ### Rebuild lemmas for C2 -/

theorem tickFold_rem_all_idle (o : ℕ → ℕ) (now : ℚ) (dst : Bool)
    (rows cols : ℕ) (L : List ℕ) (g : Grid) (rem : List ℕ)
    (hall : ∀ r c, r < rows → c < cols → (g r c).state = CellState.idle) :
    (L.foldl (processKey o now dst rows cols) (g, rem)).2 = rem ++ L := by
  induction L generalizing g rem with
  | nil => simp
  | cons k L ih =>
    rw [List.foldl_cons]
    by_cases hst : rows ≤ decodeRow k ∨ cols ≤ decodeCol k
    · rw [processKey_stale _ _ _ _ _ _ _ _ hst, ih _ _ hall]
      simp
    · have hdr : decodeRow k < rows := by omega
      have hdc : decodeCol k < cols := by omega
      have hid := hall _ _ hdr hdc
      rw [processKey_inb _ _ _ _ _ _ _ _ hst,
        tickCell_idle _ _ _ _ hid]
      rw [if_pos rfl]
      rw [ih _ _ ?_]
      · simp
      · intro r c hr hc
        by_cases hhit : r = decodeRow k ∧ c = decodeCol k
        · rw [hhit.1, hhit.2, setCell_self]
          exact hid
        · rw [setCell_ne _ _ _ _ _ _ hhit]
          exact hall r c hr hc

theorem animate_dirty_all_idle (o : ℕ → ℕ) (now : ℚ) (s : EngineState)
    (hall : ∀ r c, r < s.rows → c < s.cols →
      (s.grid r c).state = CellState.idle) :
    (animate o now s).dirty = [] := by
  simp only [animate]
  rw [tickFold_rem_all_idle _ _ _ _ _ _ _ _ hall, List.nil_append]
  rw [List.filter_eq_nil_iff]
  intro a ha
  simp [ha]

theorem animate_dirty_nil (o : ℕ → ℕ) (now : ℚ) (s : EngineState)
    (h : s.dirty = []) : (animate o now s).dirty = [] := by
  simp only [animate, h, List.filter_nil]

theorem runTicks_dirty_nil (ts : List TickIn) (s : EngineState)
    (h : s.dirty = []) : (runTicks s ts).dirty = [] := by
  induction ts generalizing s with
  | nil => exact h
  | cons t ts ih =>
    rw [runTicks, List.foldl_cons]
    exact ih _ (animate_dirty_nil t.o t.now s h)

theorem eval_witnessMoved_dirty : key 0 0 ∈ witnessMoved.dirty := by
  rw [witnessMoved]
  refine onMouseMove_dirty_hit (fun _ _ => 7) 0 0 witnessGrid22 0 0 ?_ ?_ rfl ?_ ?_
  · rw [eval_floor_0]
    have hm1 : witnessGrid22.mouseCol = -1 := rfl
    have hm2 : witnessGrid22.mouseRow = -1 := rfl
    rw [hm1, hm2]
    decide
  · rw [eval_floor_0]
    exact ⟨by decide, by decide⟩
  · rw [witnessGrid22, buildGrid_rows, eval_gridRows_22]
    decide
  · rw [witnessGrid22, buildGrid_cols, eval_gridCols_22]
    decide

/-- C2 counterexample: the claim asserts the dirty set is cleared
immediately after a rebuild; in the code `buildGrid` never touches
`dirtySet`, so rebuilding while a cell is active leaves its key in the
dirty set. -/
theorem c2_counterexample :
    (buildGrid (fun _ _ => 0) 5 5 witnessMoved).dirty ≠ [] := by
  rw [buildGrid_dirty]
  exact List.ne_nil_of_mem eval_witnessMoved_dirty

/-- C2 (corrected): a rebuild replaces every cell with a fresh idle cell
(random glyph, base color, no `origSymbol`) but leaves the dirty set
untouched; the stale keys are all purged by the next scheduler tick
(they decode to idle or out-of-bounds cells), after which the dirty set
is empty and stays empty under further ticks, so old coordinates never
reappear unless re-activated. -/
theorem c2_rebuild_postcondition (f : ℕ → ℕ → ℕ) (w h : ℚ) (s : EngineState)
    (o : ℕ → ℕ) (now : ℚ) (ts : List TickIn) :
    (buildGrid f w h s).dirty = s.dirty ∧
    (∀ r c, (buildGrid f w h s).grid r c = freshCell (f r c) ∧
      ((buildGrid f w h s).grid r c).state = CellState.idle ∧
      ((buildGrid f w h s).grid r c).color = BASE_COLOR ∧
      ((buildGrid f w h s).grid r c).symbol = some (randSymbol (f r c)) ∧
      ((buildGrid f w h s).grid r c).origSymbol = none) ∧
    (animate o now (buildGrid f w h s)).dirty = [] ∧
    (runTicks (animate o now (buildGrid f w h s)) ts).dirty = [] := by
  refine ⟨rfl, fun r c => ⟨rfl, rfl, rfl, rfl, rfl⟩, ?_, ?_⟩
  · exact animate_dirty_all_idle o now _ (fun r c _ _ => rfl)
  · exact runTicks_dirty_nil ts _ (animate_dirty_all_idle o now _ (fun r c _ _ => rfl))

/-! ### Scramble-countdown run lemmas for C4 -/

theorem stCount_cons (lf : ℚ) (i : TickIn) (is : List TickIn) :
    stCount lf (i :: is) =
      if FRAME_INTERVAL ≤ i.now - lf then 1 + stCount i.now is
      else stCount lf is := rfl

theorem lastAfter_cons (lf : ℚ) (i : TickIn) (is : List TickIn) :
    lastAfter lf (i :: is) =
      if FRAME_INTERVAL ≤ i.now - lf then lastAfter i.now is
      else lastAfter lf is := by
  rw [lastAfter]

theorem runTicks_cons (s : EngineState) (t : TickIn) (ts : List TickIn) :
    runTicks s (t :: ts) = runTicks (animate t.o t.now s) ts := rfl

theorem runTicks_append_one (s : EngineState) (us : List TickIn) (t : TickIn) :
    runTicks s (us ++ [t]) = animate t.o t.now (runTicks s us) := by
  rw [runTicks, List.foldl_append]
  rfl

/-- While fewer scramble-cadence ticks have elapsed than the cell's
remaining count, a scrambling cell stays scrambling with its counter
decremented once per scramble-cadence tick, its `origSymbol` and its
dirty-set membership intact; render-cadence frames leave it untouched. -/
theorem runTicks_scramble (us : List TickIn) (s : EngineState) (r c : ℕ) (n : ℕ)
    (hr : r < s.rows) (hc : c < s.cols) (hc10k : c < 10000)
    (hnd : s.dirty.Nodup) (hmem : key r c ∈ s.dirty)
    (hst : (s.grid r c).state = CellState.scramble)
    (hfl : (s.grid r c).framesLeft = (n : ℤ))
    (hcount : stCount s.lastFrame us ≤ n - 1) (hn : 1 ≤ n) :
    (runTicks s us).rows = s.rows ∧ (runTicks s us).cols = s.cols ∧
    (runTicks s us).dirty.Nodup ∧ key r c ∈ (runTicks s us).dirty ∧
    ((runTicks s us).grid r c).state = CellState.scramble ∧
    ((runTicks s us).grid r c).framesLeft = ((n - stCount s.lastFrame us : ℕ) : ℤ) ∧
    ((runTicks s us).grid r c).origSymbol = (s.grid r c).origSymbol ∧
    (runTicks s us).lastFrame = lastAfter s.lastFrame us := by
  induction us generalizing s n with
  | nil =>
    refine ⟨rfl, rfl, hnd, hmem, hst, ?_, rfl, rfl⟩
    show (s.grid r c).framesLeft = ((n - stCount s.lastFrame [] : ℕ) : ℤ)
    rw [hfl]
    simp [stCount]
  | cons u us ih =>
    rw [runTicks_cons, stCount_cons, lastAfter_cons]
    have hchar := animate_grid_char u.o u.now s r c hnd hc10k
    rw [if_pos ⟨hmem, hr, hc⟩] at hchar
    have hrf : removeFlag u.o (decide (FRAME_INTERVAL ≤ u.now - s.lastFrame)) u.now
        s.rows s.cols s.grid (key r c) =
        (tickCell (u.o (key r c)) (decide (FRAME_INTERVAL ≤ u.now - s.lastFrame))
          u.now (s.grid r c)).2 := by
      rw [removeFlag, if_neg (by
        rw [(decode_key r c hc10k).1, (decode_key r c hc10k).2]
        omega)]
      rw [(decode_key r c hc10k).1, (decode_key r c hc10k).2]
    by_cases hthr : FRAME_INTERVAL ≤ u.now - s.lastFrame
    · have hdec : decide (FRAME_INTERVAL ≤ u.now - s.lastFrame) = true :=
        decide_eq_true hthr
      rw [if_pos hthr, if_pos hthr]
      rw [hdec] at hchar hrf
      have hcnt : 1 + stCount u.now us ≤ n - 1 := by
        rw [stCount_cons, if_pos hthr] at hcount
        exact hcount
      have hn2 : 2 ≤ n := by omega
      have hcont := tickCell_scramble_cont (u.o (key r c)) u.now (s.grid r c) hst
        (by rw [hfl]; exact_mod_cast hn2)
      rw [hcont] at hchar hrf
      have hlf : (animate u.o u.now s).lastFrame = u.now := by
        rw [animate_lastFrame, hdec, if_pos rfl]
      have ihres := ih (animate u.o u.now s) (n - 1)
        (by rw [animate_rows]; exact hr)
        (by rw [animate_cols]; exact hc)
        (animate_dirty_nodup u.o u.now s hnd)
        ((animate_dirty_mem u.o u.now s (key r c) hnd).mpr ⟨hmem, by rw [hdec, hrf]⟩)
        (by rw [hchar]; exact hst)
        (by
          rw [hchar]
          show (s.grid r c).framesLeft - 1 = ((n - 1 : ℕ) : ℤ)
          rw [hfl]
          omega)
        (by rw [hlf]; omega)
        (by omega)
      rw [animate_rows, animate_cols, hlf] at ihres
      refine ⟨ihres.1, ihres.2.1, ihres.2.2.1, ihres.2.2.2.1, ihres.2.2.2.2.1, ?_, ?_,
        ihres.2.2.2.2.2.2.2⟩
      · rw [ihres.2.2.2.2.2.1]
        congr 1
        omega
      · rw [ihres.2.2.2.2.2.2.1, hchar]
    · have hdec : decide (FRAME_INTERVAL ≤ u.now - s.lastFrame) = false :=
        decide_eq_false hthr
      rw [if_neg hthr, if_neg hthr]
      rw [hdec] at hchar hrf
      have hnost := tickCell_scramble_noST (u.o (key r c)) u.now (s.grid r c) hst
      rw [hnost] at hchar hrf
      have hlf : (animate u.o u.now s).lastFrame = s.lastFrame := by
        rw [animate_lastFrame, hdec, if_neg (by simp)]
      have hcnt : stCount s.lastFrame us ≤ n - 1 := by
        rw [stCount_cons, if_neg hthr] at hcount
        exact hcount
      have ihres := ih (animate u.o u.now s) n
        (by rw [animate_rows]; exact hr)
        (by rw [animate_cols]; exact hc)
        (animate_dirty_nodup u.o u.now s hnd)
        ((animate_dirty_mem u.o u.now s (key r c) hnd).mpr ⟨hmem, by rw [hdec, hrf]⟩)
        (by rw [hchar]; exact hst)
        (by rw [hchar]; exact hfl)
        (by rw [hlf]; exact hcnt)
        hn
      rw [animate_rows, animate_cols, hlf] at ihres
      refine ⟨ihres.1, ihres.2.1, ihres.2.2.1, ihres.2.2.2.1, ihres.2.2.2.2.1,
        ihres.2.2.2.2.2.1, ?_, ihres.2.2.2.2.2.2.2⟩
      rw [ihres.2.2.2.2.2.2.1, hchar]

theorem eval_thr_50 : FRAME_INTERVAL ≤ (50 : ℚ) - lastAfter 0 [] := by
  rw [lastAfter]
  norm_num [FRAME_INTERVAL]

/-- C4 (confirmed): a scrambling cell with `framesLeft = n ≥ 1` is still
scrambling after any frame sequence containing `n - 1` scramble-cadence
ticks (render-cadence frames do not advance it), and the next
scramble-cadence tick `t` switches it to settling, restores its glyph
from `origSymbol`, and stamps `settleStart` with that tick's timestamp;
its key stays in the dirty set. -/
theorem c4_scramble_termination (s : EngineState) (r c : ℕ) (n : ℕ)
    (us : List TickIn) (t : TickIn)
    (hr : r < s.rows) (hc : c < s.cols) (hc10k : c < 10000)
    (hnd : s.dirty.Nodup) (hmem : key r c ∈ s.dirty)
    (hst : (s.grid r c).state = CellState.scramble)
    (hfl : (s.grid r c).framesLeft = (n : ℤ)) (hn : 1 ≤ n)
    (hcount : stCount s.lastFrame us = n - 1)
    (hthr : FRAME_INTERVAL ≤ t.now - lastAfter s.lastFrame us) :
    ((runTicks s us).grid r c).state = CellState.scramble ∧
    ((runTicks s (us ++ [t])).grid r c).state = CellState.settling ∧
    ((runTicks s (us ++ [t])).grid r c).symbol = (s.grid r c).origSymbol ∧
    ((runTicks s (us ++ [t])).grid r c).settleStart = t.now ∧
    key r c ∈ (runTicks s (us ++ [t])).dirty := by
  have hrun := runTicks_scramble us s r c n hr hc hc10k hnd hmem hst hfl
    (by omega) hn
  obtain ⟨hrows, hcols, hnd', hmem', hst', hfl', horig', hlf'⟩ := hrun
  rw [runTicks_append_one]
  set s1 := runTicks s us with hs1
  have hfl1 : (s1.grid r c).framesLeft = 1 := by
    rw [hfl', hcount]
    omega
  have hthr1 : FRAME_INTERVAL ≤ t.now - s1.lastFrame := by
    rw [hlf']
    exact hthr
  have hdec : decide (FRAME_INTERVAL ≤ t.now - s1.lastFrame) = true :=
    decide_eq_true hthr1
  have hchar := animate_grid_char t.o t.now s1 r c hnd' hc10k
  rw [if_pos ⟨hmem', by rw [hrows]; exact hr, by rw [hcols]; exact hc⟩] at hchar
  rw [hdec] at hchar
  have hdone := tickCell_scramble_done (t.o (key r c)) t.now (s1.grid r c) hst'
    (by rw [hfl1])
  rw [hdone] at hchar
  have hrf : removeFlag t.o (decide (FRAME_INTERVAL ≤ t.now - s1.lastFrame)) t.now
      s1.rows s1.cols s1.grid (key r c) =
      (tickCell (t.o (key r c)) (decide (FRAME_INTERVAL ≤ t.now - s1.lastFrame))
        t.now (s1.grid r c)).2 := by
    rw [removeFlag, if_neg (by
      rw [(decode_key r c hc10k).1, (decode_key r c hc10k).2, hrows, hcols]
      omega)]
    rw [(decode_key r c hc10k).1, (decode_key r c hc10k).2]
  refine ⟨hst', ?_, ?_, ?_, ?_⟩
  · rw [hchar]
  · rw [hchar]
    exact horig'
  · rw [hchar]
  · refine (animate_dirty_mem t.o t.now s1 (key r c) hnd').mpr ⟨hmem', ?_⟩
    rw [hrf, hdec, hdone]

/-- Witness for C4: a cell one tick from settling, hit by a throttled
tick at time 50. -/
theorem c4_witness :
    ((runTicks scrambleState1 []).grid 0 0).state = CellState.scramble ∧
    ((runTicks scrambleState1 ([] ++ [⟨fun _ => 0, 50⟩])).grid 0 0).state
      = CellState.settling ∧
    ((runTicks scrambleState1 ([] ++ [⟨fun _ => 0, 50⟩])).grid 0 0).symbol
      = (scrambleState1.grid 0 0).origSymbol ∧
    ((runTicks scrambleState1 ([] ++ [⟨fun _ => 0, 50⟩])).grid 0 0).settleStart = 50 ∧
    key 0 0 ∈ (runTicks scrambleState1 ([] ++ [⟨fun _ => 0, 50⟩])).dirty :=
  c4_scramble_termination scrambleState1 0 0 1 [] ⟨fun _ => 0, 50⟩
    (by decide) (by decide) (by decide) (by decide) (by decide)
    rfl rfl (by decide) rfl eval_thr_50

/-! ### Hex color arithmetic for C5 -/

theorem hexDigitVal_digitChar (d : ℕ) (h : d < 16) :
    hexDigitVal (Nat.digitChar d) = d := by
  interval_cases d <;> decide

theorem digits16_big (n : ℕ) (h1 : 16777216 ≤ n) (h2 : n < 33554432) :
    Nat.digits 16 n =
      [n % 16, n / 16 % 16, n / 16 / 16 % 16, n / 16 / 16 / 16 % 16,
       n / 16 / 16 / 16 / 16 % 16, n / 16 / 16 / 16 / 16 / 16 % 16, 1] := by
  have h16 : (1 : ℕ) < 16 := by norm_num
  rw [Nat.digits_def' h16 (by omega), Nat.digits_def' h16 (by omega),
    Nat.digits_def' h16 (by omega), Nat.digits_def' h16 (by omega),
    Nat.digits_def' h16 (by omega), Nat.digits_def' h16 (by omega),
    show n / 16 / 16 / 16 / 16 / 16 / 16 = 1 by omega,
    Nat.digits_def' h16 one_pos]
  norm_num

theorem lor_disjoint (x b i : ℕ) (hb : b < 2 ^ i) (hx : x % 2 ^ i = 0) :
    x ||| b = x + b := by
  have hdvd : 2 ^ i ∣ x := Nat.dvd_of_mod_eq_zero hx
  have hx2 : 2 ^ i * (x / 2 ^ i) = x := Nat.mul_div_cancel' hdvd
  rw [← hx2, ← Nat.mul_add_lt_is_or hb (x / 2 ^ i)]

theorem rgbToHex_val (rn gn bn : ℕ) (hr : rn < 256) (hg : gn < 256)
    (hb : bn < 256) :
    (1 <<< 24) ||| (rn <<< 16) ||| (gn <<< 8) ||| bn =
      16777216 + rn * 65536 + gn * 256 + bn := by
  rw [Nat.shiftLeft_eq, Nat.shiftLeft_eq, Nat.shiftLeft_eq]
  norm_num
  rw [lor_disjoint 16777216 (rn * 65536) 24 (by omega) (by omega)]
  rw [lor_disjoint (16777216 + rn * 65536) (gn * 256) 16 (by omega) (by omega)]
  rw [lor_disjoint (16777216 + rn * 65536 + gn * 256) bn 8 (by omega) (by omega)]

theorem parseHex_drop (n : ℕ) (h1 : 16777216 ≤ n) (h2 : n < 33554432) :
    parseHexChars ((toHexChars n).drop 1) = n % 16777216 := by
  rw [toHexChars, digits16_big n h1 h2]
  show parseHexChars [Nat.digitChar (n / 16 / 16 / 16 / 16 / 16 % 16),
    Nat.digitChar (n / 16 / 16 / 16 / 16 % 16), Nat.digitChar (n / 16 / 16 / 16 % 16),
    Nat.digitChar (n / 16 / 16 % 16), Nat.digitChar (n / 16 % 16),
    Nat.digitChar (n % 16)] = n % 16777216
  rw [parseHexChars]
  simp only [List.foldl_cons, List.foldl_nil]
  rw [hexDigitVal_digitChar _ (by omega), hexDigitVal_digitChar _ (by omega),
    hexDigitVal_digitChar _ (by omega), hexDigitVal_digitChar _ (by omega),
    hexDigitVal_digitChar _ (by omega), hexDigitVal_digitChar _ (by omega)]
  omega

theorem hexToRGB_rgbToHex (r g b : ℤ) (h0r : 0 ≤ r) (hr : r < 256)
    (h0g : 0 ≤ g) (hg : g < 256) (h0b : 0 ≤ b) (hb : b < 256) :
    hexToRGB (rgbToHex r g b) = (r.toNat, g.toNat, b.toNat) := by
  have hval := rgbToHex_val r.toNat g.toNat b.toNat (by omega) (by omega) (by omega)
  rw [rgbToHex, hexToRGB]
  rw [show (("#" ++ String.mk ((toHexChars ((1 <<< 24) ||| (r.toNat <<< 16) |||
      (g.toNat <<< 8) ||| b.toNat)).drop 1)).toList).drop 1 =
    (toHexChars ((1 <<< 24) ||| (r.toNat <<< 16) ||| (g.toNat <<< 8) |||
      b.toNat)).drop 1 from rfl]
  rw [parseHex_drop _ (by omega) (by omega)]
  rw [hval]
  rw [Nat.shiftRight_eq_div_pow, Nat.shiftRight_eq_div_pow,
    show (255 : ℕ) = 2 ^ 8 - 1 from rfl, Nat.and_pow_two_sub_one_eq_mod,
    Nat.and_pow_two_sub_one_eq_mod, Nat.and_pow_two_sub_one_eq_mod]
  rw [Prod.mk.injEq, Prod.mk.injEq]
  norm_num
  refine ⟨by omega, by omega, by omega⟩

theorem hexToRGB_hover : hexToRGB HOVER_COLOR = (136, 136, 136) := by decide

theorem hexToRGB_base : hexToRGB BASE_COLOR = (224, 224, 224) := by decide

theorem lerpColor_HB (t : ℚ) :
    lerpColor HOVER_COLOR BASE_COLOR t =
      rgbToHex (jsRound (136 + 88 * t)) (jsRound (136 + 88 * t))
        (jsRound (136 + 88 * t)) := by
  simp only [lerpColor, hexToRGB_hover, hexToRGB_base]
  norm_num

theorem jsRound_mono (x y : ℚ) (h : x ≤ y) : jsRound x ≤ jsRound y :=
  Int.floor_mono (by linarith)

theorem chan_lb (e : ℚ) (h0 : 0 ≤ e) : 136 ≤ jsRound (136 + 88 * e) := by
  rw [jsRound]
  exact Int.le_floor.mpr (by push_cast; linarith)

theorem chan_ub (e : ℚ) (h1 : e ≤ 1) : jsRound (136 + 88 * e) ≤ 224 := by
  rw [jsRound]
  have := Int.floor_lt.mpr
    (show (136 : ℚ) + 88 * e + 1 / 2 < ((225 : ℤ) : ℚ) by push_cast; linarith)
  omega

theorem hexToRGB_lerp (e : ℚ) (h0 : 0 ≤ e) (h1 : e ≤ 1) :
    hexToRGB (lerpColor HOVER_COLOR BASE_COLOR e) =
      ((jsRound (136 + 88 * e)).toNat, (jsRound (136 + 88 * e)).toNat,
        (jsRound (136 + 88 * e)).toNat) := by
  rw [lerpColor_HB]
  have hlb := chan_lb e h0
  have hub := chan_ub e h1
  exact hexToRGB_rgbToHex _ _ _ (by omega) (by omega) (by omega) (by omega)
    (by omega) (by omega)

theorem ease_mono (t1 t2 : ℚ) (h : t1 ≤ t2) :
    easeOutCubic t1 ≤ easeOutCubic t2 := by
  rw [easeOutCubic, easeOutCubic]
  have h2 : (1 - t2) ≤ (1 - t1) := by linarith
  have hcube : (1 - t2) ^ 3 ≤ (1 - t1) ^ 3 :=
    ((Odd.strictMono_pow (by decide : Odd 3)).le_iff_le).mpr h2
  linarith

theorem ease_nonneg (t : ℚ) (h0 : 0 ≤ t) (h1 : t ≤ 1) : 0 ≤ easeOutCubic t := by
  rw [easeOutCubic]
  have : (1 - t) ^ 3 ≤ 1 := pow_le_one₀ (by linarith) (by linarith)
  linarith

theorem ease_le_one (t : ℚ) (h1 : t ≤ 1) : easeOutCubic t ≤ 1 := by
  rw [easeOutCubic]
  have : 0 ≤ (1 - t) ^ 3 := pow_nonneg (by linarith) 3
  linarith

theorem settleFrac_nonneg (st now : ℚ) (h : st ≤ now) :
    0 ≤ min ((now - st) / SETTLE_DURATION) 1 := by
  refine le_min (div_nonneg (by linarith) (by norm_num [SETTLE_DURATION])) (by norm_num)

theorem settleFrac_le_one (st now : ℚ) :
    min ((now - st) / SETTLE_DURATION) 1 ≤ 1 := min_le_right _ _

theorem settleFrac_mono (st now1 now2 : ℚ) (h : now1 ≤ now2) :
    min ((now1 - st) / SETTLE_DURATION) 1 ≤ min ((now2 - st) / SETTLE_DURATION) 1 := by
  refine min_le_min ?_ le_rfl
  rw [div_le_div_iff_of_pos_right (by norm_num [SETTLE_DURATION])]
  linarith

theorem settleFrac_done (st now : ℚ) (h : SETTLE_DURATION ≤ now - st) :
    (1 : ℚ) ≤ min ((now - st) / SETTLE_DURATION) 1 := by
  refine le_min ?_ le_rfl
  rw [le_div_iff₀ (by norm_num [SETTLE_DURATION] : (0:ℚ) < SETTLE_DURATION)]
  linarith

/-- C5 (confirmed): on every frame a settling cell's color is the
ease-out-cubic interpolation of the clamped fraction
`elapsed / SETTLE_DURATION` from the hover tone toward the base tone
(exactly the base tone once the fraction reaches 1); the decoded RGB
channels move monotonically toward the base tone under non-decreasing
timestamps; and once `elapsed ≥ SETTLE_DURATION` the cell becomes idle
with exactly the base color, `origSymbol` cleared, and its key removed
from the dirty set by the tick. -/
theorem c5_settling_convergence (u : ℕ) (dst : Bool) (now : ℚ) (cell : Cell)
    (hst : cell.state = CellState.settling) :
    ((tickCell u dst now cell).1.color =
      if (1 : ℚ) ≤ min ((now - cell.settleStart) / SETTLE_DURATION) 1
      then BASE_COLOR
      else lerpColor HOVER_COLOR BASE_COLOR
        (easeOutCubic (min ((now - cell.settleStart) / SETTLE_DURATION) 1))) ∧
    (SETTLE_DURATION ≤ now - cell.settleStart →
      tickCell u dst now cell =
        ({ cell with
            color := BASE_COLOR
            state := CellState.idle
            origSymbol := none }, true)) ∧
    (∀ (u1 u2 : ℕ) (d1 d2 : Bool) (now1 now2 : ℚ),
      cell.settleStart ≤ now1 → now1 ≤ now2 →
      chanLe (tickCell u1 d1 now1 cell).1.color
        (tickCell u2 d2 now2 cell).1.color) ∧
    (∀ (o : ℕ → ℕ) (s : EngineState) (r c : ℕ),
      s.dirty.Nodup → c < 10000 → r < s.rows → c < s.cols →
      key r c ∈ s.dirty → s.grid r c = cell →
      SETTLE_DURATION ≤ now - cell.settleStart →
      (animate o now s).grid r c =
        { cell with
          color := BASE_COLOR
          state := CellState.idle
          origSymbol := none } ∧
      key r c ∉ (animate o now s).dirty) := by
  refine ⟨?_, ?_, ?_, ?_⟩
  · by_cases ht : (1 : ℚ) ≤ min ((now - cell.settleStart) / SETTLE_DURATION) 1
    · rw [tickCell_settling_done u dst now cell hst ht, if_pos ht]
    · rw [tickCell_settling_cont u dst now cell hst ht, if_neg ht]
  · intro hdur
    exact tickCell_settling_done u dst now cell hst
      (settleFrac_done cell.settleStart now hdur)
  · intro u1 u2 d1 d2 now1 now2 h1 h2
    have h1' : cell.settleStart ≤ now2 := le_trans h1 h2
    have hnn1 := settleFrac_nonneg cell.settleStart now1 h1
    have hle1 := settleFrac_le_one cell.settleStart now1
    have hnn2 := settleFrac_nonneg cell.settleStart now2 h1'
    have hle2 := settleFrac_le_one cell.settleStart now2
    have htm := settleFrac_mono cell.settleStart now1 now2 h2
    by_cases hd2 : (1 : ℚ) ≤ min ((now2 - cell.settleStart) / SETTLE_DURATION) 1
    · by_cases hd1 : (1 : ℚ) ≤ min ((now1 - cell.settleStart) / SETTLE_DURATION) 1
      · rw [tickCell_settling_done u1 d1 now1 cell hst hd1,
          tickCell_settling_done u2 d2 now2 cell hst hd2]
        exact ⟨le_rfl, le_rfl, le_rfl⟩
      · rw [tickCell_settling_done u2 d2 now2 cell hst hd2,
          tickCell_settling_cont u1 d1 now1 cell hst hd1]
        simp only [chanLe]
        rw [hexToRGB_lerp _ (ease_nonneg _ hnn1 hle1) (ease_le_one _ hle1),
          hexToRGB_base]
        dsimp only
        have hub := chan_ub (easeOutCubic (min ((now1 - cell.settleStart) /
          SETTLE_DURATION) 1)) (ease_le_one _ hle1)
        exact ⟨by omega, by omega, by omega⟩
    · have hd1 : ¬(1 : ℚ) ≤ min ((now1 - cell.settleStart) / SETTLE_DURATION) 1 :=
        fun hcon => hd2 (le_trans hcon htm)
      rw [tickCell_settling_cont u1 d1 now1 cell hst hd1,
        tickCell_settling_cont u2 d2 now2 cell hst hd2]
      simp only [chanLe]
      rw [hexToRGB_lerp _ (ease_nonneg _ hnn1 hle1) (ease_le_one _ hle1),
        hexToRGB_lerp _ (ease_nonneg _ hnn2 hle2) (ease_le_one _ hle2)]
      have hmon : jsRound (136 + 88 * easeOutCubic (min ((now1 - cell.settleStart) /
          SETTLE_DURATION) 1)) ≤
        jsRound (136 + 88 * easeOutCubic (min ((now2 - cell.settleStart) /
          SETTLE_DURATION) 1)) := by
        refine jsRound_mono _ _ ?_
        have := ease_mono _ _ htm
        linarith
      have h3 := Int.toNat_le_toNat hmon
      exact ⟨h3, h3, h3⟩
  · intro o s r c hnd hc10k hr hc hmem hgc hdur
    have ht := settleFrac_done cell.settleStart now hdur
    have hchar := animate_grid_char o now s r c hnd hc10k
    rw [if_pos ⟨hmem, hr, hc⟩, hgc] at hchar
    have hdone := tickCell_settling_done (o (key r c))
      (decide (FRAME_INTERVAL ≤ now - s.lastFrame)) now cell hst ht
    rw [hdone] at hchar
    refine ⟨hchar, ?_⟩
    intro hcon
    have hflag := ((animate_dirty_mem o now s (key r c) hnd).mp hcon).2
    rw [removeFlag, if_neg (by
      rw [(decode_key r c hc10k).1, (decode_key r c hc10k).2]
      omega)] at hflag
    rw [(decode_key r c hc10k).1, (decode_key r c hc10k).2, hgc, hdone] at hflag
    exact Bool.noConfusion hflag

theorem eval_settle_450 : SETTLE_DURATION ≤ (450 : ℚ) - settleCell1.settleStart := by
  show SETTLE_DURATION ≤ (450 : ℚ) - 0
  norm_num [SETTLE_DURATION]

/-- Witness for C5 at the concrete settling cell `settleCell1`. -/
theorem c5_witness :
    ((tickCell 0 true 450 settleCell1).1.color =
      if (1 : ℚ) ≤ min ((450 - settleCell1.settleStart) / SETTLE_DURATION) 1
      then BASE_COLOR
      else lerpColor HOVER_COLOR BASE_COLOR
        (easeOutCubic (min ((450 - settleCell1.settleStart) / SETTLE_DURATION) 1))) ∧
    (tickCell 0 true 450 settleCell1 =
      ({ settleCell1 with
          color := BASE_COLOR
          state := CellState.idle
          origSymbol := none }, true)) ∧
    chanLe (tickCell 1 true 100 settleCell1).1.color
      (tickCell 2 false 200 settleCell1).1.color ∧
    ((animate (fun _ => 0) 450 settleState1).grid 0 0 =
      { settleCell1 with
        color := BASE_COLOR
        state := CellState.idle
        origSymbol := none } ∧
      key 0 0 ∉ (animate (fun _ => 0) 450 settleState1).dirty) := by
  have h := c5_settling_convergence 0 true 450 settleCell1 rfl
  exact ⟨h.1, h.2.1 eval_settle_450,
    h.2.2.1 1 2 true false 100 200 (by decide) (by decide),
    h.2.2.2 (fun _ => 0) settleState1 0 0 (by decide) (by decide) (by decide)
      (by decide) (by decide) rfl eval_settle_450⟩
